import Mathlib

/-!
Verification development for the Undercover party-game coordinator.

The repository has two implementations of the coordinator core:
* `server.ts` — an in-memory socket server keeping one `Lobby` record per code,
  with players keyed by their socket id;
* the service layer (`lobby.service.ts`, `game.service.ts`, `game-engine.ts`) —
  a Redis/Prisma-backed implementation keyed by durable player ids.

Both are embedded below.  JavaScript objects used as string-keyed records are
modelled as association lists in insertion order (the iteration order of
`Object.entries` / `Object.values` for non-index string keys).  All sources of
randomness (`Math.random`) are modelled by explicit numeric parameters or a
stream `Nat → Nat`, reduced by `%` exactly where the code applies
`Math.floor(Math.random() * n)`.
-/

/-- JS object property read `obj[k]`: first (unique) matching key. -/
def lookupAssoc {α : Type} (l : List (String × α)) (k : String) : Option α :=
  (l.find? (fun p => p.1 == k)).map (·.2)

/-- JS object property write `obj[k] = v`: update the existing key in place,
otherwise append the new key (string-key insertion order). -/
def setAssoc {α : Type} (l : List (String × α)) (k : String) (v : α) : List (String × α) :=
  if l.any (fun p => p.1 == k) then l.map (fun p => if p.1 == k then (k, v) else p)
  else l ++ [(k, v)]

/-- Mutate the first element satisfying `P` (JS `find`/`findIndex` followed by an
in-place mutation of the found element). -/
def updateFirst {α : Type} (P : α → Bool) (f : α → α) : List α → List α
  | [] => []
  | a :: l => if P a then f a :: l else a :: updateFirst P f l

/-- Keys of a JS string-keyed object in insertion order: first occurrences. -/
def keysOf : List String → List String
  | [] => []
  | a :: l => a :: (keysOf l).filter (fun b => b != a)

/-- The vote-tally loop: `voteTally[t] = (voteTally[t] || 0) + 1` over the target
of each vote in processing order. -/
def buildTally (targets : List String) : List (String × Nat) :=
  targets.foldl (fun t k => setAssoc t k ((lookupAssoc t k).getD 0 + 1)) []

/-- The argmax scan over `Object.entries(voteTally)`: strict `count > maxVotes`
starting from `('', 0)`. -/
def scanMax (entries : List (String × Nat)) : String × Nat :=
  entries.foldl (fun acc e => if e.2 > acc.2 then e else acc) ("", 0)

/-- Largest count appearing in a tally. -/
def maxCnt (entries : List (String × Nat)) : Nat :=
  entries.foldr (fun e m => max e.2 m) 0

/-- Number of votes processed before candidate `k`'s running count first
reaches `m` (`length + 1` when it never does).  Used to state the spec's
"first candidate to reach the maximum count" reading. -/
def firstReach (targets : List String) (k : String) (m : Nat) : Nat :=
  (((List.range (targets.length + 1)).find? (fun n => m ≤ (targets.take n).count k))).getD
    (targets.length + 1)

/-- In-place swap of two list positions, as the destructuring assignment
`[a[i], a[j]] = [a[j], a[i]]` in `shuffleArray`. -/
def listSwap {α : Type} (l : List α) (i j : Nat) : List α :=
  if h : i < l.length ∧ j < l.length then
    (l.set i (l.get ⟨j, h.2⟩)).set j (l.get ⟨i, h.1⟩)
  else l

/-- The Fisher–Yates loop of `shuffleArray`: `for (i = len-1; i > 0; i--)`
with `j = Math.floor(Math.random() * (i + 1))`. -/
def shuffleAux {α : Type} (randf : Nat → Nat) : List α → Nat → List α
  | l, 0 => l
  | l, i + 1 => shuffleAux randf (listSwap l (i + 1) (randf (i + 1) % (i + 2))) i

/-- `shuffleArray` from `game-engine.ts` / `server.ts` / `game.service.ts`. -/
def shuffleArray {α : Type} (randf : Nat → Nat) (l : List α) : List α :=
  shuffleAux randf l (l.length - 1)

/-- The category table shared verbatim by `server.ts`, `game-engine.ts` and
`game.service.ts`, in source order. -/
def CATEGORIES : List (String × List String) :=
  [("Animals", ["Dog", "Cat", "Elephant", "Giraffe", "Lion", "Tiger", "Bear", "Wolf",
      "Fox", "Rabbit", "Deer", "Horse"]),
   ("Food", ["Pizza", "Burger", "Sushi", "Pasta", "Taco", "Salad", "Steak", "Sandwich",
      "Soup", "Curry", "Ramen", "Burrito"]),
   ("Movies", ["Titanic", "Avatar", "Inception", "Jaws", "Matrix", "Frozen", "Shrek",
      "Gladiator", "Psycho", "Rocky", "Alien", "Joker"]),
   ("Sports", ["Soccer", "Basketball", "Tennis", "Golf", "Baseball", "Hockey", "Cricket",
      "Rugby", "Boxing", "Swimming", "Cycling", "Skiing"]),
   ("Countries", ["France", "Japan", "Brazil", "Egypt", "Canada", "Australia", "Mexico",
      "Italy", "India", "Germany", "Spain", "China"]),
   ("Professions", ["Doctor", "Teacher", "Chef", "Pilot", "Lawyer", "Artist", "Engineer",
      "Nurse", "Firefighter", "Police", "Astronaut", "Scientist"])]

/-- Player record of `game-engine.ts`. -/
structure EnginePlayer where
  id : String
  name : String
  isHost : Bool
  clue : Option String := none
  hasVoted : Bool := false
deriving DecidableEq, Repr

/-- Result record of `tallyVotes` in `game-engine.ts`. -/
structure TallyResult where
  mostVotedId : String
  mostVotedName : String
  voteCount : Nat
  voteResults : List (String × String)
deriving DecidableEq, Repr

/-- `tallyVotes(votes, players)` from `game-engine.ts`: count votes by target in
insertion order, then scan `Object.entries` with a strict comparison. -/
def tallyVotes (votes : List (String × String)) (players : List EnginePlayer) : TallyResult :=
  let tally := buildTally (votes.map (·.2))
  let best := scanMax tally
  { mostVotedId := best.1
    mostVotedName := (((players.find? (fun p => p.id == best.1)).map (·.name))).getD "Unknown"
    voteCount := best.2
    voteResults := votes.map (fun cv =>
      ((((players.find? (fun p => p.id == cv.1)).map (·.name))).getD "Unknown",
       (((players.find? (fun p => p.id == cv.2)).map (·.name))).getD "Unknown")) }

/-! ## Service layer (`lobby.service.ts`, `game.service.ts`) -/

/-- Lobby status of `LobbyState` in `lobby.service.ts`. -/
inductive GStatus where
  | waiting | playing | voting | guessing | finished
deriving DecidableEq, Repr

/-- `LobbyPlayer` of `lobby.service.ts`. -/
structure LobbyPlayer where
  id : String
  socketId : String
  name : String
  isHost : Bool
  isConnected : Bool
  disconnectedAt : Option Nat := none
deriving DecidableEq, Repr

/-- `LobbyState` of `lobby.service.ts` (the `gameType` and database id are kept
as opaque strings; JS `Record` fields become insertion-ordered assoc lists). -/
structure LobbyState where
  code : String
  gameId : String
  hostId : String
  hostSocketId : String
  status : GStatus
  gameType : String
  maxPlayers : Nat
  minPlayers : Nat
  createdAt : Nat
  category : Option String := none
  secretWord : Option String := none
  allWords : Option (List String) := none
  chameleonId : Option String := none
  playerOrder : Option (List String) := none
  currentPlayerIndex : Option Nat := none
  clues : Option (List (String × String)) := none
  votes : Option (List (String × String)) := none
deriving DecidableEq, Repr

/-- The code alphabet `CODE_CHARS` (no I, O, 0, 1). -/
def CODE_CHARS : List Char :=
  "ABCDEFGHJKLMNPQRSTUVWXYZ".toList

/-- One 4-character candidate drawn on attempt number `a` (0-based), consuming
four values of the random stream. -/
def drawCode (rand : Nat → Nat) (a : Nat) : String :=
  String.mk ((List.range 4).map (fun i => CODE_CHARS.getD (rand (4 * a + i) % CODE_CHARS.length) 'A'))

/-- The `do … while (attempts < maxAttempts)` loop of
`LobbyService.generateCode`; `taken c = true` when the candidate exists in
Redis or as an unconcluded game in the database.  Returns the last candidate
together with the number of attempts consumed. -/
def genLoop (taken : String → Bool) (rand : Nat → Nat) : Nat → Nat → String × Nat
  | attempts, 0 => (drawCode rand attempts, attempts + 1)
  | attempts, fuel + 1 =>
    let c := drawCode rand attempts
    if taken c then
      if attempts + 1 < 10 then genLoop taken rand (attempts + 1) fuel
      else (c, attempts + 1)
    else (c, attempts + 1)

/-- `LobbyService.generateCode`: bounded retry, throwing after the attempt
budget (`maxAttempts = 10`) is used up. -/
def generateCode (taken : String → Bool) (rand : Nat → Nat) : Except String String :=
  let r := genLoop taken rand 0 10
  if 10 ≤ r.2 then Except.error "Failed to generate unique lobby code"
  else Except.ok r.1

/-- `LobbyService.createLobby` (restricted to the in-memory lobby record and
host member; the database writes are fire-and-forget). -/
def createLobby (code hostPlayerId hostSocketId hostName : String) :
    LobbyState × LobbyPlayer :=
  ({ code := code
     gameId := code
     hostId := hostPlayerId
     hostSocketId := hostSocketId
     status := GStatus.waiting
     gameType := "undercover"
     maxPlayers := 10
     minPlayers := 3
     createdAt := 0 },
   { id := hostPlayerId
     socketId := hostSocketId
     name := hostName
     isHost := true
     isConnected := true })

/-- `LobbyService.joinLobby`.  `none` models every `return null` failure path;
on success the returned triple is (lobby, joining player, saved player list). -/
def joinLobby (lobby? : Option LobbyState) (players : List LobbyPlayer)
    (playerId socketId playerName : String) :
    Option (LobbyState × LobbyPlayer × List LobbyPlayer) :=
  match lobby? with
  | none => none
  | some lobby =>
    if lobby.status ≠ GStatus.waiting then none
    else if lobby.maxPlayers ≤ players.length then none
    else if players.any (fun p => p.name == playerName && p.id != playerId) then none
    else
      match players.find? (fun p => p.id == playerId) with
      | some ex =>
        let ex' : LobbyPlayer :=
          { ex with socketId := socketId, isConnected := true, disconnectedAt := none }
        some (lobby, ex',
          updateFirst (fun p => p.id == playerId)
            (fun p => { p with socketId := socketId, isConnected := true, disconnectedAt := none })
            players)
      | none =>
        let np : LobbyPlayer :=
          { id := playerId, socketId := socketId, name := playerName,
            isHost := false, isConnected := true }
        some (lobby, np, players ++ [np])

/-- Result record of `LobbyService.leaveLobby`. -/
structure LeaveResult where
  removed : Bool
  newHost : Option LobbyPlayer := none
  remaining : List LobbyPlayer
  lobbyDeleted : Bool
  lobby : LobbyState
deriving DecidableEq, Repr

/-- `LobbyService.leaveLobby`: remove by player id, delete when empty, transfer
host to `players[0]` of the remaining list. -/
def leaveLobby (lobby : LobbyState) (players : List LobbyPlayer) (playerId : String) :
    LeaveResult :=
  match players.find? (fun p => p.id == playerId) with
  | none => { removed := false, remaining := players, lobbyDeleted := false, lobby := lobby }
  | some leaving =>
    match players.eraseP (fun p => p.id == playerId) with
    | [] => { removed := true, remaining := [], lobbyDeleted := true, lobby := lobby }
    | h0 :: rest =>
      if leaving.isHost then
        let nh : LobbyPlayer := { h0 with isHost := true }
        { removed := true, newHost := some nh, remaining := nh :: rest, lobbyDeleted := false,
          lobby := { lobby with hostId := h0.id, hostSocketId := h0.socketId } }
      else
        { removed := true, remaining := h0 :: rest, lobbyDeleted := false, lobby := lobby }

/-- `LobbyService.handlePlayerDisconnect`: mark the member disconnected without
touching membership or round state. -/
def handlePlayerDisconnect (players : List LobbyPlayer) (playerId : String) (now : Nat) :
    List LobbyPlayer :=
  updateFirst (fun p => p.id == playerId)
    (fun p => { p with isConnected := false, disconnectedAt := some now }) players

/-- `GameStartResult` of `game.service.ts`. -/
structure GameStartResult where
  category : String
  allWords : List String
  secretWord : String
  chameleonId : String
  playerOrder : List LobbyPlayer
deriving DecidableEq, Repr

/-- `GameService.startGame`.  The category, word, impostor and shuffle
randomness are the explicit parameters `catR`, `wordR`, `chamR`, `randf`.
`none` covers every path that changes no state: missing lobby, wrong status,
too few players, and the runtime error raised by indexing an empty player
list (which happens before any mutation). -/
def startGame (lobby? : Option LobbyState) (players : List LobbyPlayer)
    (catR wordR chamR : Nat) (randf : Nat → Nat) :
    Option (GameStartResult × LobbyState) :=
  match lobby? with
  | none => none
  | some lobby =>
    if lobby.status ≠ GStatus.waiting then none
    else if players.length < lobby.minPlayers then none
    else
      match players.get? (if players.length = 0 then 0 else chamR % players.length) with
      | none => none
      | some chameleon =>
        let cat := CATEGORIES.getD (catR % CATEGORIES.length) ("", [])
        let words := cat.2
        let secretWord := words.getD (wordR % words.length) ""
        let playerOrder := shuffleArray randf players
        let lobby' : LobbyState :=
          { lobby with
            status := GStatus.playing
            category := some cat.1
            secretWord := some secretWord
            allWords := some words
            chameleonId := some chameleon.id
            playerOrder := some (playerOrder.map (·.id))
            currentPlayerIndex := some 0
            clues := some []
            votes := some [] }
        some ({ category := cat.1, allWords := words, secretWord := secretWord,
                chameleonId := chameleon.id, playerOrder := playerOrder }, lobby')

/-- Result of `GameService.submitClue`. -/
structure SubmitClueResult where
  success : Bool
  nextPlayerId : Option String := none
  allCluesSubmitted : Option Bool := none
deriving DecidableEq, Repr

/-- `GameService.submitClue`.  The second component is the lobby state written
back by `saveLobbyState` — `none` when nothing was saved (every rejected
call returns before mutating). -/
def submitClue (lobby? : Option LobbyState) (players : List LobbyPlayer)
    (playerId clue : String) : SubmitClueResult × Option LobbyState :=
  match lobby? with
  | none => ({ success := false }, none)
  | some lobby =>
    if lobby.status ≠ GStatus.playing then ({ success := false }, none)
    else
      match lobby.playerOrder with
      | none => ({ success := false }, none)
      | some order =>
        match lobby.currentPlayerIndex with
        | none => ({ success := false }, none)
        | some idx =>
          if order.get? idx ≠ some playerId then ({ success := false }, none)
          else
            let clues' := setAssoc (lobby.clues.getD []) playerId clue
            let idx' := idx + 1
            let allIn := decide (players.length ≤ idx')
            let lobby' : LobbyState :=
              { lobby with
                clues := some clues'
                currentPlayerIndex := some idx'
                status := if allIn then GStatus.voting else GStatus.playing }
            ({ success := true
               nextPlayerId := if allIn then none else order.get? idx'
               allCluesSubmitted := some allIn }, some lobby')

/-- `VoteResult` of `game.service.ts` (the per-vote name table is kept as the
raw caster/target id pairs plus resolved names). -/
structure VoteResult where
  mostVotedId : String
  mostVotedName : String
  voteCount : Nat
  isChameleon : Bool
deriving DecidableEq, Repr

/-- Result of `GameService.submitVote`. -/
structure SubmitVoteResult where
  success : Bool
  votesCount : Nat
  allVotesIn : Bool
  voteResult : Option VoteResult := none
deriving DecidableEq, Repr

/-- `GameService.submitVote`.  The target id is stored and tallied with no
membership check whatsoever.  The already-voted test is JS truthiness of
`lobby.votes[casterId]`, so an empty-string previous vote does not count.
The second component is the saved lobby state (`none` when nothing saved). -/
def submitVote (lobby? : Option LobbyState) (players : List LobbyPlayer)
    (casterId targetId : String) : SubmitVoteResult × Option LobbyState :=
  match lobby? with
  | none => ({ success := false, votesCount := 0, allVotesIn := false }, none)
  | some lobby =>
    if lobby.status ≠ GStatus.voting then
      ({ success := false, votesCount := 0, allVotesIn := false }, none)
    else
      let votes := lobby.votes.getD []
      if ((lookupAssoc votes casterId).getD "") ≠ "" then
        ({ success := false, votesCount := votes.length, allVotesIn := false }, none)
      else
        let votes' := setAssoc votes casterId targetId
        let votesCount := votes'.length
        if votesCount < players.length then
          ({ success := true, votesCount := votesCount, allVotesIn := false },
           some { lobby with votes := some votes' })
        else
          let best := scanMax (buildTally (votes'.map (·.2)))
          let isCham := lobby.chameleonId == some best.1
          let lobby' : LobbyState :=
            { lobby with
              votes := some votes'
              status := if isCham then GStatus.guessing else GStatus.finished }
          ({ success := true, votesCount := votesCount, allVotesIn := true,
             voteResult := some
               { mostVotedId := best.1
                 mostVotedName := (((players.find? (fun p => p.id == best.1)).map (·.name))).getD "Unknown"
                 voteCount := best.2
                 isChameleon := isCham } }, some lobby')

/-- One coordinator operation on a lobby, for the host-invariant claim.
Grace-period expiry removes the player through the leave path. -/
inductive Op where
  | join (playerId socketId name : String)
  | leave (playerId : String)
  | disconnect (playerId : String) (now : Nat)
deriving DecidableEq, Repr

/-- Apply one operation to a live lobby (`none` = lobby deleted/absent). -/
def applyOp (st : Option (LobbyState × List LobbyPlayer)) (op : Op) :
    Option (LobbyState × List LobbyPlayer) :=
  match st with
  | none => none
  | some (lobby, players) =>
    match op with
    | Op.join pid sid name =>
      match joinLobby (some lobby) players pid sid name with
      | none => some (lobby, players)
      | some (lobby', _, players') => some (lobby', players')
    | Op.leave pid =>
      let r := leaveLobby lobby players pid
      if r.removed then
        if r.lobbyDeleted then none else some (r.lobby, r.remaining)
      else some (lobby, players)
    | Op.disconnect pid now => some (lobby, handlePlayerDisconnect players pid now)

/-! ## In-memory socket server (`server.ts`) -/

/-- `lobby.state` values used by `server.ts` (`results` is the concluded
phase, `chameleonGuessing` the impostor-guess phase). -/
inductive SState where
  | waiting | playing | voting | chameleonGuessing | results
deriving DecidableEq, Repr

/-- `Player` as kept by `server.ts`: keyed by the live socket id. -/
structure SPlayer where
  id : String
  name : String
  isHost : Bool
  clue : Option String := none
  vote : Option String := none
  hasVoted : Bool := false
  disconnectedAt : Option Nat := none
  disconnectedSocketId : Option String := none
deriving DecidableEq, Repr

/-- `Lobby` as kept by `server.ts`.  `playerOrder` holds the same objects as
`players`; because socket ids are unique we represent it by the list of their
ids. -/
structure SLobby where
  code : String
  host : String
  players : List SPlayer
  state : SState
  category : Option String := none
  secretWord : Option String := none
  allWords : List String := []
  chameleonId : Option String := none
  playerOrder : List String := []
  currentPlayerIndex : Nat := 0
  roundEndTime : Option Nat := none
  mostVoted : Option String := none
  voteCount : Nat := 0
  caughtChameleon : Bool := false
  chameleonGuess : Option String := none
  chameleonGuessedCorrectly : Bool := false
deriving DecidableEq, Repr

/-- The per-player `game-started` payload emitted by the `start-game`
handler. -/
structure GamePayload where
  category : String
  allWords : List String
  secretWord : Option String
  isChameleon : Bool
  playerOrder : List String
  currentPlayer : String
deriving DecidableEq, Repr

/-- The `start-game` handler of `server.ts` (lines 221–263): host-only guard,
at least three players, random category/word/impostor, Fisher–Yates turn
order, per-player payloads hiding the secret word from the impostor.  When a
guard fails the handler returns with no state change and no payloads. -/
def startGameSrv (lobby : SLobby) (socketId : String)
    (catR wordR chamR : Nat) (randf : Nat → Nat) :
    SLobby × List (String × GamePayload) :=
  if lobby.host ≠ socketId then (lobby, [])
  else if lobby.players.length < 3 then (lobby, [])
  else
    let cat := CATEGORIES.getD (catR % CATEGORIES.length) ("", [])
    let words := cat.2
    let secretWord := words.getD (wordR % words.length) ""
    let chameleon := lobby.players.getD (chamR % lobby.players.length)
      { id := "", name := "", isHost := false }
    let order := shuffleArray randf (lobby.players.map (·.id))
    let players' := lobby.players.map
      (fun p => { p with clue := none, vote := none, hasVoted := false })
    let lobby' : SLobby :=
      { lobby with
        state := SState.playing
        category := some cat.1
        secretWord := some secretWord
        allWords := words
        chameleonId := some chameleon.id
        playerOrder := order
        currentPlayerIndex := 0
        players := players' }
    (lobby',
     players'.map (fun p =>
       (p.id,
        { category := cat.1
          allWords := words
          secretWord := if p.id = chameleon.id then none else some secretWord
          isChameleon := p.id = chameleon.id
          playerOrder := order
          currentPlayer := order.getD 0 "" })))

/-- Events relevant to the rejoin/disconnect claims. -/
inductive SEvent where
  | rejoinFailed
  | rejoinSuccess
  | rejoinSuccessNew
  | playerLeft (name : String)
  | gameInterrupted (name : String)
deriving DecidableEq, Repr

/-- The `disconnect` handler (lines 427–437) restricted to one lobby: mark the
member owning the dropped socket as provisionally absent.  The deferred
removal is `disconnectExpiry` below. -/
def disconnectPlayer (lobby : SLobby) (socketId : String) (now : Nat) : SLobby :=
  { lobby with
    players := updateFirst (fun p => p.id == socketId)
      (fun p => { p with disconnectedAt := some now, disconnectedSocketId := some socketId })
      lobby.players }

/-- The `rejoin-lobby` handler (lines 136–194).  Identity is matched by display
name; on a match the member is rebound to the new socket id and the host
pointer, impostor pointer and turn-order entry that referred to the old
socket id are rebound with it. -/
def rejoinLobby (lobby : SLobby) (playerName newSocketId : String) : SLobby × SEvent :=
  match lobby.players.find? (fun p => p.name == playerName) with
  | none =>
    if lobby.state = SState.waiting ∧ lobby.players.length < 10 then
      ({ lobby with players := lobby.players ++
          [{ id := newSocketId, name := playerName, isHost := false }] },
       SEvent.rejoinSuccessNew)
    else (lobby, SEvent.rejoinFailed)
  | some ex =>
    let oldId := ex.id
    let players' := updateFirst (fun p => p.name == playerName)
      (fun p => { p with id := newSocketId, disconnectedAt := none, disconnectedSocketId := none })
      lobby.players
    ({ lobby with
       players := players'
       host := if lobby.host = oldId then newSocketId else lobby.host
       chameleonId := if lobby.chameleonId = some oldId then some newSocketId else lobby.chameleonId
       playerOrder := updateFirst (fun i => i == oldId) (fun _ => newSocketId) lobby.playerOrder },
     SEvent.rejoinSuccess)

/-- The deferred grace-period check (lines 439–477): if the member found by
name still carries the disconnect marker for this socket, remove them; an
empty lobby is deleted (`none`); host transfers to the first remaining member;
any state other than `waiting` is collapsed back to `waiting` with a
`game-interrupted` broadcast, otherwise `player-left` is broadcast. -/
def disconnectExpiry (lobby : SLobby) (playerName socketId : String) :
    Option SLobby × Option SEvent :=
  match lobby.players.find? (fun p => p.name == playerName) with
  | none => (some lobby, none)
  | some cur =>
    if cur.disconnectedSocketId ≠ some socketId then (some lobby, none)
    else
      match lobby.players.eraseP (fun p => p.name == playerName) with
      | [] => (none, none)
      | h0 :: rest =>
        let players' := if cur.isHost then { h0 with isHost := true } :: rest else h0 :: rest
        let host' := if cur.isHost then h0.id else lobby.host
        if lobby.state ≠ SState.waiting then
          (some { lobby with
                  players := players'
                  host := host'
                  state := SState.waiting
                  category := none
                  secretWord := none
                  allWords := []
                  chameleonId := none
                  playerOrder := []
                  currentPlayerIndex := 0 },
           some (SEvent.gameInterrupted playerName))
        else
          (some { lobby with players := players', host := host' },
           some (SEvent.playerLeft playerName))

/-- Connection-independent view of a member: everything except the socket id
and the transient disconnect markers (the claims quantify over members whose
markers are clear). -/
structure PlayerView where
  name : String
  isHost : Bool
  clue : Option String
  vote : Option String
  hasVoted : Bool
  disconnectedAt : Option Nat
  disconnectedSocketId : Option String
deriving DecidableEq, Repr

/-- Project a member to its connection-independent view. -/
def viewPlayer (p : SPlayer) : PlayerView :=
  { name := p.name, isHost := p.isHost, clue := p.clue, vote := p.vote,
    hasVoted := p.hasVoted, disconnectedAt := p.disconnectedAt,
    disconnectedSocketId := p.disconnectedSocketId }

/-- Resolve a socket id to the display name of the member holding it (the id
itself when no member does). -/
def nameOf (lobby : SLobby) (i : String) : String :=
  (((lobby.players.find? (fun p => p.id == i)).map (·.name))).getD i

/-- Connection-independent view of a lobby: membership, phase and role
assignment with every socket id replaced by the owning member's name. -/
structure LobbyView where
  code : String
  hostName : String
  players : List PlayerView
  state : SState
  category : Option String
  secretWord : Option String
  allWords : List String
  chameleonName : Option String
  playerOrderNames : List String
  currentPlayerIndex : Nat
  mostVoted : Option String
  voteCount : Nat
  caughtChameleon : Bool
  chameleonGuess : Option String
  chameleonGuessedCorrectly : Bool
deriving DecidableEq, Repr

/-- Project a lobby to its connection-independent view. -/
def viewLobby (L : SLobby) : LobbyView :=
  { code := L.code
    hostName := nameOf L L.host
    players := L.players.map viewPlayer
    state := L.state
    category := L.category
    secretWord := L.secretWord
    allWords := L.allWords
    chameleonName := L.chameleonId.map (nameOf L)
    playerOrderNames := L.playerOrder.map (nameOf L)
    currentPlayerIndex := L.currentPlayerIndex
    mostVoted := L.mostVoted
    voteCount := L.voteCount
    caughtChameleon := L.caughtChameleon
    chameleonGuess := L.chameleonGuess
    chameleonGuessedCorrectly := L.chameleonGuessedCorrectly }

/-! ## Permutation facts about the Fisher–Yates shuffle -/

theorem perm_cons_set {α : Type} (t : List α) (k : Nat) (x : α) (hk : k < t.length) :
    List.Perm (t.get ⟨k, hk⟩ :: t.set k x) (x :: t) := by
  induction t generalizing k with
  | nil => exact absurd hk (Nat.not_lt_zero k)
  | cons b t ih =>
    cases k with
    | zero =>
      simp only [List.get_cons_zero, List.set_cons_zero]
      exact List.Perm.swap x b t
    | succ m =>
      have hm : m < t.length := Nat.lt_of_succ_lt_succ hk
      simp only [List.get_cons_succ, List.set_cons_succ]
      exact List.Perm.trans (List.Perm.swap b (t.get ⟨m, hm⟩) (t.set m x))
        (List.Perm.trans (List.Perm.cons b (ih m hm)) (List.Perm.swap x b t))

theorem set_swap_perm {α : Type} (l : List α) (i j : Nat)
    (hi : i < l.length) (hj : j < l.length) :
    List.Perm ((l.set i (l.get ⟨j, hj⟩)).set j (l.get ⟨i, hi⟩)) l := by
  induction l generalizing i j with
  | nil => exact absurd hi (Nat.not_lt_zero i)
  | cons a t ih =>
    cases i with
    | zero =>
      cases j with
      | zero =>
        simp only [List.get_cons_zero, List.set_cons_zero]
        exact List.Perm.refl _
      | succ m =>
        have hm : m < t.length := Nat.lt_of_succ_lt_succ hj
        simp only [List.get_cons_zero, List.get_cons_succ, List.set_cons_zero,
          List.set_cons_succ]
        exact perm_cons_set t m a hm
    | succ n =>
      cases j with
      | zero =>
        have hn : n < t.length := Nat.lt_of_succ_lt_succ hi
        simp only [List.get_cons_zero, List.get_cons_succ, List.set_cons_zero,
          List.set_cons_succ]
        exact perm_cons_set t n a hn
      | succ m =>
        have hn : n < t.length := Nat.lt_of_succ_lt_succ hi
        have hm : m < t.length := Nat.lt_of_succ_lt_succ hj
        simp only [List.get_cons_succ, List.set_cons_succ]
        exact List.Perm.cons a (ih n m hn hm)

theorem listSwap_perm {α : Type} (l : List α) (i j : Nat) :
    List.Perm (listSwap l i j) l := by
  unfold listSwap
  split
  · next h => exact set_swap_perm l i j h.1 h.2
  · exact List.Perm.refl l

theorem shuffleAux_perm {α : Type} (randf : Nat → Nat) :
    ∀ (n : Nat) (l : List α), List.Perm (shuffleAux randf l n) l := by
  intro n
  induction n with
  | zero => intro l; exact List.Perm.refl l
  | succ i ih =>
    intro l
    rw [shuffleAux]
    exact List.Perm.trans (ih _) (listSwap_perm l (i + 1) (randf (i + 1) % (i + 2)))

theorem shuffleArray_perm {α : Type} (randf : Nat → Nat) (l : List α) :
    List.Perm (shuffleArray randf l) l :=
  shuffleAux_perm randf (l.length - 1) l

/-! ## The plurality tally -/

/-- Contents of the finished tally object: first-occurrence keys paired with
their total counts. -/
def tallyOf (ts : List String) : List (String × Nat) :=
  (keysOf ts).map (fun k => (k, ts.count k))

theorem mem_keysOf {x : String} : ∀ {ts : List String}, x ∈ keysOf ts ↔ x ∈ ts := by
  intro ts
  induction ts with
  | nil => simp [keysOf]
  | cons a l ih =>
    by_cases h : x = a
    · subst h; simp [keysOf]
    · simp [keysOf, List.mem_filter, ih, h, bne_iff_ne]

theorem lookupAssoc_cons {α : Type} (k : String) (v : α) (l : List (String × α)) (t : String) :
    lookupAssoc ((k, v) :: l) t = if k = t then some v else lookupAssoc l t := by
  by_cases h : k = t
  · simp [lookupAssoc, h]
  · simp [lookupAssoc, h]

theorem lookupAssoc_tab {α : Type} (f : String → α) (t : String) :
    ∀ ks : List String,
      lookupAssoc (ks.map (fun k => (k, f k))) t = if t ∈ ks then some (f t) else none := by
  intro ks
  induction ks with
  | nil => simp [lookupAssoc]
  | cons k ks ih =>
    by_cases h : k = t
    · subst h; simp [lookupAssoc_cons, ih]
    · simp [lookupAssoc_cons, h, ih, List.mem_cons, Ne.symm h]

theorem anyKey_tab {α : Type} (f : String → α) (t : String) (ks : List String) :
    ((ks.map (fun k => (k, f k))).any (fun p => p.1 == t)) = decide (t ∈ ks) := by
  induction ks with
  | nil => simp
  | cons k ks ih =>
    by_cases h : k = t
    · subst h; simp
    · simp [h, ih, List.mem_cons, Ne.symm h]

theorem keysOf_append_single (t : String) :
    ∀ p : List String, keysOf (p ++ [t]) = if t ∈ p then keysOf p else keysOf p ++ [t] := by
  intro p
  induction p with
  | nil => simp [keysOf]
  | cons a p ih =>
    by_cases hp : t ∈ p
    · rw [List.cons_append, keysOf, keysOf, ih, if_pos hp, if_pos (List.mem_cons_of_mem a hp)]
    · by_cases hta : t = a
      · subst hta
        rw [List.cons_append, keysOf, keysOf, ih, if_neg hp, if_pos (List.mem_cons_self t p),
          List.filter_append]
        simp
      · have hnm : t ∉ a :: p := by simp [hta, hp]
        rw [List.cons_append, keysOf, keysOf, ih, if_neg hp, if_neg hnm, List.filter_append]
        simp [bne_iff_ne, hta]

theorem tallyStep (p : List String) (t : String) :
    setAssoc (tallyOf p) t ((lookupAssoc (tallyOf p) t).getD 0 + 1) = tallyOf (p ++ [t]) := by
  by_cases hm : t ∈ p
  · have hl : lookupAssoc (tallyOf p) t = some (p.count t) := by
      rw [tallyOf, lookupAssoc_tab]
      simp [mem_keysOf, hm]
    have ha : ((tallyOf p).any (fun e => e.1 == t)) = true := by
      rw [tallyOf, anyKey_tab]
      simp [mem_keysOf, hm]
    simp only [setAssoc, ha, if_true, hl, Option.getD_some]
    rw [tallyOf, tallyOf, keysOf_append_single, if_pos hm, List.map_map]
    apply List.map_congr_left
    intro k hk
    by_cases hkt : k = t
    · subst hkt
      simp [List.count_append, List.count_singleton]
    · simp [hkt, List.count_append, List.count_singleton, Ne.symm hkt]
  · have hl : lookupAssoc (tallyOf p) t = none := by
      rw [tallyOf, lookupAssoc_tab]
      simp [mem_keysOf, hm]
    have ha : ((tallyOf p).any (fun e => e.1 == t)) = false := by
      rw [tallyOf, anyKey_tab]
      simp [mem_keysOf, hm]
    simp only [setAssoc, ha, Bool.false_eq_true, if_false, hl, Option.getD_none]
    rw [tallyOf, tallyOf, keysOf_append_single, if_neg hm, List.map_append]
    congr 1
    · apply List.map_congr_left
      intro k hk
      have hkt : k ≠ t := fun h => hm (h ▸ mem_keysOf.mp hk)
      simp [List.count_append, List.count_singleton, Ne.symm hkt]
    · simp [List.count_append, List.count_singleton, List.count_eq_zero_of_not_mem hm]

theorem buildTally_aux (ts : List String) :
    ∀ p : List String,
      ts.foldl (fun t k => setAssoc t k ((lookupAssoc t k).getD 0 + 1)) (tallyOf p) =
        tallyOf (p ++ ts) := by
  induction ts with
  | nil => intro p; simp
  | cons t ts ih =>
    intro p
    rw [List.foldl_cons, tallyStep, ih]
    simp

theorem buildTally_eq (ts : List String) : buildTally ts = tallyOf ts := by
  have h := buildTally_aux ts []
  simpa [buildTally, tallyOf, keysOf] using h

theorem maxCnt_cons (x : String × Nat) (es : List (String × Nat)) :
    maxCnt (x :: es) = max x.2 (maxCnt es) := rfl

theorem le_maxCnt_of_mem {e : String × Nat} :
    ∀ {es : List (String × Nat)}, e ∈ es → e.2 ≤ maxCnt es := by
  intro es
  induction es with
  | nil => intro h; cases h
  | cons x es ih =>
    intro h
    rw [maxCnt_cons]
    rcases List.mem_cons.mp h with h | h
    · subst h; exact Nat.le_max_left _ _
    · exact le_trans (ih h) (Nat.le_max_right _ _)

theorem scanFold_spec :
    ∀ (es : List (String × Nat)) (a : String × Nat),
      (maxCnt es ≤ a.2 →
        es.foldl (fun acc e => if e.2 > acc.2 then e else acc) a = a) ∧
      (a.2 < maxCnt es →
        es.find? (fun e => e.2 == maxCnt es) =
          some (es.foldl (fun acc e => if e.2 > acc.2 then e else acc) a)) := by
  intro es
  induction es with
  | nil =>
    intro a
    exact ⟨fun _ => rfl, fun h => absurd h (Nat.not_lt_zero _)⟩
  | cons e es ih =>
    intro a
    constructor
    · intro hle
      rw [maxCnt_cons] at hle
      have he : ¬ e.2 > a.2 := Nat.not_lt.mpr (le_trans (Nat.le_max_left _ _) hle)
      rw [List.foldl_cons, if_neg he]
      exact (ih a).1 (le_trans (Nat.le_max_right _ _) hle)
    · intro hlt
      rw [maxCnt_cons] at hlt
      rw [List.foldl_cons]
      by_cases he : e.2 > a.2
      · rw [if_pos he]
        by_cases hM : maxCnt es ≤ e.2
        · have hmax : max e.2 (maxCnt es) = e.2 := Nat.max_eq_left hM
          rw [maxCnt_cons, hmax, List.find?_cons_of_pos _ (by simp), (ih e).1 hM]
        · push_neg at hM
          have hmax : max e.2 (maxCnt es) = maxCnt es := Nat.max_eq_right (Nat.le_of_lt hM)
          rw [maxCnt_cons, hmax, List.find?_cons_of_neg _ (by simp [Nat.ne_of_lt hM])]
          exact (ih e).2 hM
      · rw [if_neg he]
        have hea : e.2 ≤ a.2 := Nat.not_lt.mp he
        have hM : a.2 < maxCnt es := by
          rcases Nat.lt_or_ge a.2 (maxCnt es) with h | h
          · exact h
          · exact absurd hlt (Nat.not_lt.mpr (Nat.max_le.mpr ⟨hea, h⟩))
        have hmax : max e.2 (maxCnt es) = maxCnt es :=
          Nat.max_eq_right (le_trans hea (Nat.le_of_lt hM))
        rw [maxCnt_cons, hmax,
          List.find?_cons_of_neg _ (by simp [Nat.ne_of_lt (lt_of_le_of_lt hea hM)])]
        exact (ih a).2 hM

theorem keysOf_sorted :
    ∀ ts : List String, (keysOf ts).Pairwise (fun a b => ts.indexOf a < ts.indexOf b) := by
  intro ts
  induction ts with
  | nil => simp [keysOf]
  | cons a l ih =>
    rw [keysOf]
    apply List.Pairwise.cons
    · intro b hb
      have hb' := List.mem_filter.mp hb
      have hba : b ≠ a := by simpa [bne_iff_ne] using hb'.2
      rw [List.indexOf_cons_self, List.indexOf_cons_ne _ (Ne.symm hba)]
      exact Nat.succ_pos _
    · have hsub : ((keysOf l).filter (fun b => b != a)).Sublist (keysOf l) :=
        List.filter_sublist _
      refine List.Pairwise.imp_of_mem ?_ (ih.sublist hsub)
      intro x y hx hy hxy
      have hxa : x ≠ a := by simpa [bne_iff_ne] using (List.mem_filter.mp hx).2
      have hya : y ≠ a := by simpa [bne_iff_ne] using (List.mem_filter.mp hy).2
      rw [List.indexOf_cons_ne _ (Ne.symm hxa), List.indexOf_cons_ne _ (Ne.symm hya)]
      exact Nat.succ_lt_succ hxy

theorem exists_of_find?_eq_some {α : Type} {p : α → Bool} {a : α} :
    ∀ {l : List α}, l.find? p = some a →
      ∃ l1 l2, l = l1 ++ a :: l2 ∧ ∀ x ∈ l1, ¬ p x = true := by
  intro l
  induction l with
  | nil => intro h; cases h
  | cons b l ih =>
    intro h
    by_cases hb : p b
    · rw [List.find?_cons_of_pos _ hb] at h
      cases h
      exact ⟨[], l, rfl, by simp⟩
    · rw [List.find?_cons_of_neg _ hb] at h
      obtain ⟨l1, l2, rfl, hl1⟩ := ih h
      refine ⟨b :: l1, l2, rfl, ?_⟩
      intro x hx
      rcases List.mem_cons.mp hx with rfl | hx
      · exact hb
      · exact hl1 x hx

theorem find?_tally (ts : List String) (M : Nat) :
    (tallyOf ts).find? (fun e => e.2 == M) =
      ((keysOf ts).find? (fun k => ts.count k == M)).map (fun k => (k, ts.count k)) := by
  rw [tallyOf]
  induction keysOf ts with
  | nil => simp
  | cons k ks ih =>
    rw [List.map_cons]
    simp only [List.find?]
    by_cases h : (ts.count k == M) = true
    · simp [h]
    · simp [h, ih]

/-- C1 (amended): the winner returned by `tallyVotes` is a vote target whose
count is maximal, and among all targets tied at the maximal count it is the one
whose **first vote** occurs earliest in the vote-processing order (the tally
object's insertion order) — not the one whose running count first reaches the
shared maximum.  With a unique strict maximum this makes the winner the
strictly-highest-count target. -/
theorem tally_winner_spec (votes : List (String × String)) (players : List EnginePlayer)
    (hne : votes ≠ []) :
    (tallyVotes votes players).mostVotedId ∈ votes.map (·.2) ∧
    (∀ k ∈ votes.map (·.2),
      (votes.map (·.2)).count k ≤
        (votes.map (·.2)).count ((tallyVotes votes players).mostVotedId)) ∧
    (∀ k ∈ votes.map (·.2),
      (votes.map (·.2)).count k =
          (votes.map (·.2)).count ((tallyVotes votes players).mostVotedId) →
      (votes.map (·.2)).indexOf ((tallyVotes votes players).mostVotedId) ≤
        (votes.map (·.2)).indexOf k) := by
  have hmv : (tallyVotes votes players).mostVotedId =
      (scanMax (tallyOf (votes.map (·.2)))).1 := by
    show (scanMax (buildTally (votes.map (·.2)))).1 = _
    rw [buildTally_eq]
  rw [hmv]
  set ts := votes.map (·.2) with hts
  have htsne : ts ≠ [] := fun h => hne (List.map_eq_nil_iff.mp h)
  have hM0 : 0 < maxCnt (tallyOf ts) := by
    obtain ⟨t, ts', hcons⟩ := List.exists_cons_of_ne_nil htsne
    have hmem : (t, ts.count t) ∈ tallyOf ts := by
      rw [tallyOf]
      exact List.mem_map_of_mem _ (by rw [hcons, keysOf]; exact List.mem_cons_self _ _)
    have h1 : 1 ≤ ts.count t := by
      rw [hcons, List.count_cons_self]
      omega
    exact lt_of_lt_of_le h1 (le_maxCnt_of_mem hmem)
  have hscan : (tallyOf ts).find? (fun e => e.2 == maxCnt (tallyOf ts)) =
      some (scanMax (tallyOf ts)) :=
    (scanFold_spec (tallyOf ts) ("", 0)).2 hM0
  rw [find?_tally] at hscan
  obtain ⟨kw, hkw, hfkw⟩ := Option.map_eq_some'.mp hscan
  have hw1 : (scanMax (tallyOf ts)).1 = kw := by rw [← hfkw]
  rw [hw1]
  have hkwM : ts.count kw = maxCnt (tallyOf ts) := by
    have := List.find?_some hkw
    simpa using this
  have hkwmem : kw ∈ ts := mem_keysOf.mp (List.mem_of_find?_eq_some hkw)
  refine ⟨hkwmem, ?_, ?_⟩
  · intro k hk
    have hkk : (k, ts.count k) ∈ tallyOf ts := by
      rw [tallyOf]
      exact List.mem_map_of_mem _ (mem_keysOf.mpr hk)
    rw [hkwM]
    exact le_maxCnt_of_mem hkk
  · intro k hk hcount
    obtain ⟨ks1, ks2, hdec, hks1⟩ := exists_of_find?_eq_some hkw
    have hkmem : k ∈ ks1 ++ kw :: ks2 := by rw [← hdec]; exact mem_keysOf.mpr hk
    have hknot1 : k ∉ ks1 := by
      intro hmem1
      exact hks1 k hmem1 (by simp [hcount, hkwM])
    have hsorted := keysOf_sorted ts
    rw [hdec] at hsorted
    rcases List.mem_append.mp hkmem with h1 | h2
    · exact absurd h1 hknot1
    · rcases List.mem_cons.mp h2 with rfl | h3
      · exact le_refl _
      · have hrel := (List.pairwise_cons.mp (List.pairwise_append.mp hsorted).2.1).1
        exact Nat.le_of_lt (hrel k h3)

/-- C1 (counterexample): with ballots cast in the order A, B, B, A the final
counts tie at 2, candidate "B" is the first whose running count reaches the
shared maximum 2 (after the third ballot, versus the fourth for "A"), yet
`tallyVotes` declares "A" the winner.  The claim's tie-break — "the tied
candidate that was first to reach that shared maximum count" — is therefore
false for the code. -/
theorem tally_first_reach_cex :
    (["A", "B", "B", "A"].count "A" = 2 ∧ ["A", "B", "B", "A"].count "B" = 2 ∧
      (∀ k ∈ ["A", "B", "B", "A"], ["A", "B", "B", "A"].count k ≤ 2)) ∧
    firstReach ["A", "B", "B", "A"] "B" 2 < firstReach ["A", "B", "B", "A"] "A" 2 ∧
    (tallyVotes [("v1", "A"), ("v2", "B"), ("v3", "B"), ("v4", "A")] []).mostVotedId = "A" ∧
    (tallyVotes [("v1", "A"), ("v2", "B"), ("v3", "B"), ("v4", "A")] []).mostVotedId ≠ "B" := by
  decide

/-- C1 (witness): the amended theorem applied at the concrete tied ballot. -/
theorem tally_winner_spec_witness :
    (tallyVotes [("v1", "A"), ("v2", "B"), ("v3", "B"), ("v4", "A")] []).mostVotedId ∈
      [("v1", "A"), ("v2", "B"), ("v3", "B"), ("v4", "A")].map (·.2) :=
  (tally_winner_spec [("v1", "A"), ("v2", "B"), ("v3", "B"), ("v4", "A")] [] (by decide)).1

/-! ## Bounded code generation -/

theorem genLoop_char (taken : String → Bool) (rand : Nat → Nat) :
    ∀ (fuel attempts : Nat), attempts + fuel = 10 → attempts < 10 →
      attempts < (genLoop taken rand attempts fuel).2 ∧
      (genLoop taken rand attempts fuel).2 ≤ 10 ∧
      ((genLoop taken rand attempts fuel).2 < 10 →
        taken (genLoop taken rand attempts fuel).1 = false) ∧
      ((∀ i, attempts ≤ i → i < 9 → taken (drawCode rand i) = true) →
        (genLoop taken rand attempts fuel).2 = 10) ∧
      ((∃ i, attempts ≤ i ∧ i < 9 ∧ taken (drawCode rand i) = false) →
        (genLoop taken rand attempts fuel).2 < 10) := by
  intro fuel
  induction fuel with
  | zero =>
    intro attempts hsum hlt
    exact absurd hlt (by omega)
  | succ f ih =>
    intro attempts hsum hlt
    rw [genLoop]
    by_cases htk : taken (drawCode rand attempts) = true
    · rw [if_pos htk]
      by_cases ha : attempts + 1 < 10
      · rw [if_pos ha]
        obtain ⟨g1, g2, g3, g4, g5⟩ := ih (attempts + 1) (by omega) ha
        refine ⟨by omega, g2, g3, ?_, ?_⟩
        · intro hP
          exact g4 (fun i hi1 hi2 => hP i (by omega) hi2)
        · rintro ⟨i, hi1, hi2, hi3⟩
          refine g5 ⟨i, ?_, hi2, hi3⟩
          rcases Nat.eq_or_lt_of_le hi1 with rfl | h
          · exact absurd htk (by simp [hi3])
          · omega
      · rw [if_neg ha]
        refine ⟨by omega, by omega, by omega, fun _ => by omega, ?_⟩
        rintro ⟨i, hi1, hi2, _⟩
        omega
    · rw [if_neg htk]
      have htk' : taken (drawCode rand attempts) = false := by
        cases h : taken (drawCode rand attempts)
        · rfl
        · exact absurd h htk
      refine ⟨by omega, by omega, fun _ => htk', ?_, ?_⟩
      · intro hP
        by_cases h9 : attempts < 9
        · exact absurd (hP attempts (le_refl _) h9) (by simp [htk'])
        · omega
      · rintro ⟨i, hi1, hi2, _⟩
        omega

/-- C9: `LobbyService.generateCode` terminates for every oracle and randomness
stream: the retry loop consumes at most 10 attempts; a returned code is never a
taken one; when every candidate drawn before the tenth attempt collides it
fails with the `CodeExhausted` error instead of retrying without bound, and
when some earlier candidate is free it returns a free code. -/
theorem generateCode_bounded (taken : String → Bool) (rand : Nat → Nat) :
    (genLoop taken rand 0 10).2 ≤ 10 ∧
    (∀ c, generateCode taken rand = Except.ok c → taken c = false) ∧
    ((∀ i, i < 9 → taken (drawCode rand i) = true) →
      generateCode taken rand = Except.error "Failed to generate unique lobby code") ∧
    ((∃ i, i < 9 ∧ taken (drawCode rand i) = false) →
      ∃ c, generateCode taken rand = Except.ok c ∧ taken c = false) := by
  obtain ⟨g1, g2, g3, g4, g5⟩ := genLoop_char taken rand 10 0 (by omega) (by omega)
  refine ⟨g2, ?_, ?_, ?_⟩
  · intro c hc
    rw [generateCode] at hc
    split at hc
    · cases hc
    · cases hc
      next h10 =>
        exact g3 (by omega)
  · intro hP
    rw [generateCode]
    have h10 : (genLoop taken rand 0 10).2 = 10 := g4 (fun i _ hi => hP i hi)
    rw [if_pos (by omega)]
  · rintro ⟨i, hi, hfree⟩
    have hlt : (genLoop taken rand 0 10).2 < 10 := g5 ⟨i, by omega, hi, hfree⟩
    refine ⟨(genLoop taken rand 0 10).1, ?_, g3 hlt⟩
    rw [generateCode, if_neg (by omega)]

/-- C9 (witness): with every candidate taken the generator reports exhaustion;
the theorem applied at that concrete oracle. -/
theorem generateCode_bounded_witness :
    generateCode (fun _ => true) (fun n => n) =
      Except.error "Failed to generate unique lobby code" :=
  (generateCode_bounded (fun _ => true) (fun n => n)).2.2.1 (fun _ _ => rfl)

/-! ## Round state-machine guards -/

/-- The member id at the current turn index (`lobby.playerOrder![lobby.currentPlayerIndex!]`,
`none` when either field is unset or the index is out of range). -/
def currentTurnHolder (l : LobbyState) : Option String :=
  match l.playerOrder, l.currentPlayerIndex with
  | some ord, some idx => ord.get? idx
  | _, _ => none

/-- C2: `GameService.startGame` succeeds only when the lobby exists with status
`waiting` and at least `minPlayers` members; called in any other status or with
fewer members it returns `null` having saved nothing; `createLobby` fixes
`minPlayers = 3`. -/
theorem startGame_guard (lobby? : Option LobbyState) (players : List LobbyPlayer)
    (catR wordR chamR : Nat) (randf : Nat → Nat) :
    (∀ res, startGame lobby? players catR wordR chamR randf = some res →
      ∃ l, lobby? = some l ∧ l.status = GStatus.waiting ∧ l.minPlayers ≤ players.length) ∧
    (∀ l, lobby? = some l →
      (l.status ≠ GStatus.waiting ∨ players.length < l.minPlayers) →
      startGame lobby? players catR wordR chamR randf = none) ∧
    (∀ c pid sid n, (createLobby c pid sid n).1.minPlayers = 3) := by
  refine ⟨?_, ?_, fun _ _ _ _ => rfl⟩
  · intro res hres
    cases hl : lobby? with
    | none => rw [hl] at hres; simp [startGame] at hres
    | some l =>
      rw [hl] at hres
      rw [startGame] at hres
      split at hres
      · cases hres
      · split at hres
        · cases hres
        · next hs hn =>
          exact ⟨l, rfl, not_not.mp hs, by omega⟩
  · intro l hl hbad
    rw [hl, startGame]
    by_cases hs : l.status ≠ GStatus.waiting
    · rw [if_pos hs]
    · rcases hbad with hb | hb
      · exact absurd hb hs
      · rw [if_neg hs, if_pos hb]

/-- C2 (witness): a fresh single-member lobby (fewer than `minPlayers = 3`
members) cannot start a round; the theorem applied there. -/
theorem startGame_guard_witness :
    startGame (some (createLobby "ABCD" "p1" "s1" "Alice").1)
      [(createLobby "ABCD" "p1" "s1" "Alice").2] 0 0 0 (fun _ => 0) = none :=
  (startGame_guard (some (createLobby "ABCD" "p1" "s1" "Alice").1)
      [(createLobby "ABCD" "p1" "s1" "Alice").2] 0 0 0 (fun _ => 0)).2.1
    (createLobby "ABCD" "p1" "s1" "Alice").1 rfl (Or.inr (by decide))

/-- C4: an out-of-turn or wrong-phase `submitClue` returns `success := false`
and saves nothing (silent ignore); the turn holder's clue in `playing` is
stored under the sender's id, the index advances, and the status flips to
`voting` exactly when the advanced index reaches the member count. -/
theorem submitClue_spec (lobby? : Option LobbyState) (players : List LobbyPlayer)
    (playerId clue : String) :
    ((lobby? = none → submitClue lobby? players playerId clue = ({ success := false }, none)) ∧
      (∀ l, lobby? = some l →
        (l.status ≠ GStatus.playing ∨ currentTurnHolder l ≠ some playerId) →
        submitClue lobby? players playerId clue = ({ success := false }, none))) ∧
    (∀ l ord idx, lobby? = some l → l.status = GStatus.playing →
      l.playerOrder = some ord → l.currentPlayerIndex = some idx →
      ord.get? idx = some playerId →
      submitClue lobby? players playerId clue =
        ({ success := true
           nextPlayerId := if decide (players.length ≤ idx + 1) then none else ord.get? (idx + 1)
           allCluesSubmitted := some (decide (players.length ≤ idx + 1)) },
         some { l with
                clues := some (setAssoc (l.clues.getD []) playerId clue)
                currentPlayerIndex := some (idx + 1)
                status := if decide (players.length ≤ idx + 1) then GStatus.voting
                  else GStatus.playing })) := by
  refine ⟨⟨?_, ?_⟩, ?_⟩
  · intro h
    rw [h, submitClue]
  · intro l hl hbad
    rw [hl, submitClue]
    by_cases hs : l.status = GStatus.playing
    · rw [if_neg (by simp [hs])]
      cases ho : l.playerOrder with
      | none => rfl
      | some ord =>
        cases hi : l.currentPlayerIndex with
        | none => rfl
        | some idx =>
          have hturn : ord.get? idx ≠ some playerId := by
            rcases hbad with hb | hb
            · exact absurd hs hb
            · simpa [currentTurnHolder, ho, hi] using hb
          rw [List.get?_eq_getElem?] at hturn
          simp [hturn]
    · rw [if_pos hs]
  · intro l ord idx hl hs ho hi hget
    rw [hl, submitClue, if_neg (by simp [hs]), ho, hi]
    rw [List.get?_eq_getElem?] at hget
    simp [hget]

/-- C4 (witness): the theorem applied at a concrete three-member lobby in the
`playing` phase with the turn holder submitting. -/
theorem submitClue_spec_witness :
    (submitClue
      (some { code := "ABCD", gameId := "g", hostId := "p1", hostSocketId := "s1",
              status := GStatus.playing, gameType := "undercover", maxPlayers := 10,
              minPlayers := 3, createdAt := 0, playerOrder := some ["p1", "p2", "p3"],
              currentPlayerIndex := some 0 })
      [{ id := "p1", socketId := "s1", name := "Alice", isHost := true, isConnected := true },
       { id := "p2", socketId := "s2", name := "Bob", isHost := false, isConnected := true },
       { id := "p3", socketId := "s3", name := "Cara", isHost := false, isConnected := true }]
      "p1" "striped").1.success = true := by
  rw [(submitClue_spec
      (some { code := "ABCD", gameId := "g", hostId := "p1", hostSocketId := "s1",
              status := GStatus.playing, gameType := "undercover", maxPlayers := 10,
              minPlayers := 3, createdAt := 0, playerOrder := some ["p1", "p2", "p3"],
              currentPlayerIndex := some 0 })
      [{ id := "p1", socketId := "s1", name := "Alice", isHost := true, isConnected := true },
       { id := "p2", socketId := "s2", name := "Bob", isHost := false, isConnected := true },
       { id := "p3", socketId := "s3", name := "Cara", isHost := false, isConnected := true }]
      "p1" "striped").2 _ ["p1", "p2", "p3"] 0 rfl rfl rfl rfl rfl]

theorem setAssoc_of_lookup_none {α : Type} (l : List (String × α)) (k : String) (v : α)
    (h : lookupAssoc l k = none) : setAssoc l k v = l ++ [(k, v)] := by
  have hf : l.find? (fun p => p.1 == k) = none := Option.map_eq_none'.mp h
  have hall := List.find?_eq_none.mp hf
  have hany : ¬ (l.any (fun p => p.1 == k) = true) := by
    rw [List.any_eq_true]
    rintro ⟨x, hx, hpx⟩
    exact hall x hx hpx
  rw [setAssoc, if_neg hany]

/-- A concrete voting-phase lobby whose two recorded votes already name the
departed, non-member id "GHOST". -/
def ghostLobby : LobbyState :=
  { code := "ABCD", gameId := "g", hostId := "p1", hostSocketId := "s1",
    status := GStatus.voting, gameType := "undercover", maxPlayers := 10,
    minPlayers := 3, createdAt := 0, chameleonId := some "p1",
    votes := some [("p1", "GHOST"), ("p2", "GHOST")] }

/-- The three current members of `ghostLobby`; none of them is "GHOST". -/
def ghostPlayers : List LobbyPlayer :=
  [{ id := "p1", socketId := "s1", name := "Alice", isHost := true, isConnected := true },
   { id := "p2", socketId := "s2", name := "Bob", isHost := false, isConnected := true },
   { id := "p3", socketId := "s3", name := "Cara", isHost := false, isConnected := true }]

/-- C10: in the `voting` phase, a caster who has not voted gets any target id
recorded verbatim — no membership validation — and the stored vote is tallied;
concretely, the last member of `ghostLobby` voting for the non-member "GHOST"
makes "GHOST" the most-voted target (name resolved as "Unknown") and ends the
round. -/
theorem submitVote_any_target (l : LobbyState) (players : List LobbyPlayer)
    (casterId targetId : String) (hs : l.status = GStatus.voting)
    (hv : lookupAssoc (l.votes.getD []) casterId = none) :
    ((submitVote (some l) players casterId targetId).1.success = true ∧
      ∃ l', (submitVote (some l) players casterId targetId).2 = some l' ∧
        l'.votes = some (l.votes.getD [] ++ [(casterId, targetId)])) ∧
    ("GHOST" ∉ ghostPlayers.map (·.id) ∧
      (submitVote (some ghostLobby) ghostPlayers "p3" "GHOST").1.voteResult =
        some { mostVotedId := "GHOST", mostVotedName := "Unknown", voteCount := 3,
               isChameleon := false } ∧
      ((submitVote (some ghostLobby) ghostPlayers "p3" "GHOST").2.map (·.status)) =
        some GStatus.finished) := by
  have hvotes' : setAssoc (l.votes.getD []) casterId targetId =
      l.votes.getD [] ++ [(casterId, targetId)] :=
    setAssoc_of_lookup_none _ _ _ hv
  refine ⟨?_, by decide⟩
  rw [submitVote, if_neg (by simp [hs]), if_neg (by simp [hv])]
  by_cases hlen : (setAssoc (l.votes.getD []) casterId targetId).length < players.length
  · rw [if_pos hlen]
    exact ⟨rfl, _, rfl, by rw [hvotes']⟩
  · rw [if_neg hlen]
    exact ⟨rfl, _, rfl, by rw [hvotes']⟩

/-- C10 (witness): the theorem applied at the concrete `ghostLobby` run. -/
theorem submitVote_any_target_witness :
    (submitVote (some ghostLobby) ghostPlayers "p3" "GHOST").1.success = true :=
  ((submitVote_any_target ghostLobby ghostPlayers "p3" "GHOST" rfl (by decide)).1).1

/-! ## Membership operations -/

theorem updateFirst_length {α : Type} (P : α → Bool) (f : α → α) :
    ∀ l : List α, (updateFirst P f l).length = l.length := by
  intro l
  induction l with
  | nil => rfl
  | cons a l ih =>
    rw [updateFirst]
    by_cases h : P a
    · rw [if_pos h]
      simp
    · rw [if_neg h]
      simp [ih]

theorem updateFirst_map_of_preserve {α β : Type} (P : α → Bool) (f : α → α) (g : α → β)
    (hg : ∀ x, g (f x) = g x) : ∀ l : List α, (updateFirst P f l).map g = l.map g := by
  intro l
  induction l with
  | nil => rfl
  | cons a l ih =>
    rw [updateFirst]
    by_cases h : P a
    · rw [if_pos h]
      simp [hg]
    · rw [if_neg h]
      simp [ih]

theorem updateFirst_of_forall_neg {α : Type} (P : α → Bool) (f : α → α) :
    ∀ l : List α, (∀ x ∈ l, ¬ P x = true) → updateFirst P f l = l := by
  intro l
  induction l with
  | nil => intro _; rfl
  | cons a l ih =>
    intro h
    rw [updateFirst, if_neg (h a (List.mem_cons_self a l))]
    rw [ih (fun x hx => h x (List.mem_cons_of_mem a hx))]

theorem updateFirst_split {α : Type} (P : α → Bool) (f : α → α) (x : α) (l2 : List α)
    (hx : P x = true) :
    ∀ l1 : List α, (∀ y ∈ l1, ¬ P y = true) →
      updateFirst P f (l1 ++ x :: l2) = l1 ++ f x :: l2 := by
  intro l1
  induction l1 with
  | nil => intro _; rw [List.nil_append, List.nil_append, updateFirst, if_pos hx]
  | cons a l1 ih =>
    intro h
    rw [List.cons_append, updateFirst, if_neg (h a (List.mem_cons_self a l1)),
      ih (fun y hy => h y (List.mem_cons_of_mem a hy)), List.cons_append]

/-- A waiting lobby with a single member "Alice" (`p1`), used to exercise the
re-entry path of `joinLobby`. -/
def rejoinL : LobbyState :=
  { code := "ABCD", gameId := "g", hostId := "p1", hostSocketId := "s1",
    status := GStatus.waiting, gameType := "undercover", maxPlayers := 10,
    minPlayers := 3, createdAt := 0 }

/-- The member list of `rejoinL`. -/
def rejoinPs : List LobbyPlayer :=
  [{ id := "p1", socketId := "s1", name := "Alice", isHost := true, isConnected := true }]

/-- C7 (counterexample): player `p1` re-enters under the new display name
"Alicia"; the call succeeds and rebinds the connection (socket `s9`) but the
stored name stays "Alice" — the re-entry path updates the connection only,
never the name, refuting the claim's "updates that member's connection and
name in place". -/
theorem joinLobby_name_cex :
    (joinLobby (some rejoinL) rejoinPs "p1" "s9" "Alicia").map
        (fun r => (r.2.1.name, r.2.1.socketId)) = some ("Alice", "s9") ∧
      ("Alice" : String) ≠ "Alicia" := by
  decide

/-- C7 (amended): `joinLobby` fails exactly when the lobby is absent, its
status is not `waiting`, the member count is already at `maxPlayers`, or the
requested name collides with a different `playerId`; when the joining
`playerId` is already a member the call updates that member's connection
(socket id, connected flag, cleared disconnect timestamp) in place — leaving
the stored display name unchanged — and adds no duplicate member. -/
theorem joinLobby_spec (lobby? : Option LobbyState) (players : List LobbyPlayer)
    (pid sid pname : String) :
    (joinLobby lobby? players pid sid pname = none ↔
      lobby? = none ∨ ∃ l, lobby? = some l ∧
        (l.status ≠ GStatus.waiting ∨ l.maxPlayers ≤ players.length ∨
          ∃ p ∈ players, p.name = pname ∧ p.id ≠ pid)) ∧
    (∀ l ex, lobby? = some l → l.status = GStatus.waiting →
      players.length < l.maxPlayers →
      (¬ ∃ p ∈ players, p.name = pname ∧ p.id ≠ pid) →
      players.find? (fun p => p.id == pid) = some ex →
      joinLobby lobby? players pid sid pname =
        some (l, { ex with socketId := sid, isConnected := true, disconnectedAt := none },
          updateFirst (fun p => p.id == pid)
            (fun p => { p with socketId := sid, isConnected := true, disconnectedAt := none })
            players) ∧
      (updateFirst (fun p => p.id == pid)
          (fun p => { p with socketId := sid, isConnected := true, disconnectedAt := none })
          players).map (·.name) = players.map (·.name) ∧
      (updateFirst (fun p => p.id == pid)
          (fun p => { p with socketId := sid, isConnected := true, disconnectedAt := none })
          players).length = players.length) := by
  constructor
  · cases lobby? with
    | none => simp [joinLobby]
    | some l =>
      rw [joinLobby]
      by_cases hs : l.status ≠ GStatus.waiting
      · simp only [if_pos hs]
        simp [hs]
      · rw [if_neg hs]
        by_cases hc : l.maxPlayers ≤ players.length
        · simp only [if_pos hc]
          simp [hc]
        · rw [if_neg hc]
          by_cases hn : (players.any (fun p => p.name == pname && p.id != pid)) = true
          · simp only [if_pos hn]
            rw [List.any_eq_true] at hn
            obtain ⟨p, hp, hpp⟩ := hn
            simp only [Bool.and_eq_true, beq_iff_eq, bne_iff_ne] at hpp
            simp only [true_iff]
            exact Or.inr ⟨l, rfl, Or.inr (Or.inr ⟨p, hp, hpp⟩)⟩
          · rw [if_neg hn]
            cases hf : players.find? (fun p => p.id == pid) with
            | some ex =>
              constructor
              · intro h; exact Option.noConfusion h
              · rintro (h | ⟨l', hl', hbad⟩)
                · exact Option.noConfusion h
                · cases hl'
                  rcases hbad with hb | hb | ⟨p, hp, h1, h2⟩
                  · exact absurd hb hs
                  · exact absurd hb hc
                  · exact absurd (List.any_eq_true.mpr ⟨p, hp, by simp [h1, h2]⟩) hn
            | none =>
              constructor
              · intro h; exact Option.noConfusion h
              · rintro (h | ⟨l', hl', hbad⟩)
                · exact Option.noConfusion h
                · cases hl'
                  rcases hbad with hb | hb | ⟨p, hp, h1, h2⟩
                  · exact absurd hb hs
                  · exact absurd hb hc
                  · exact absurd (List.any_eq_true.mpr ⟨p, hp, by simp [h1, h2]⟩) hn
  · intro l ex hl hs hcap hcol hfind
    subst hl
    refine ⟨?_, ?_, updateFirst_length _ _ _⟩
    · rw [joinLobby, if_neg (by simp [hs]), if_neg (by omega)]
      rw [if_neg ?_, hfind]
      rw [List.any_eq_true]
      rintro ⟨p, hp, hpp⟩
      simp only [Bool.and_eq_true, beq_iff_eq, bne_iff_ne] at hpp
      exact hcol ⟨p, hp, hpp⟩
    · exact updateFirst_map_of_preserve (fun p => p.id == pid)
        (fun p => { p with socketId := sid, isConnected := true, disconnectedAt := none })
        (fun p => p.name) (fun x => rfl) players

/-- C7 (witness): the amended theorem applied to the re-entry of `p1` under its
existing name. -/
theorem joinLobby_spec_witness :
    joinLobby (some rejoinL) rejoinPs "p1" "s9" "Alice" =
      some (rejoinL,
        { id := "p1", socketId := "s9", name := "Alice", isHost := true, isConnected := true },
        updateFirst (fun p => p.id == "p1")
          (fun p => { p with socketId := "s9", isConnected := true, disconnectedAt := none })
          rejoinPs) :=
  (((joinLobby_spec (some rejoinL) rejoinPs "p1" "s9" "Alice").2
    rejoinL
    { id := "p1", socketId := "s1", name := "Alice", isHost := true, isConnected := true }
    rfl rfl (by decide) (by decide) rfl)).1

/-! ## Host authority invariant -/

theorem find?_split {α : Type} (p : α → Bool) (a : α) (l2 : List α) (ha : p a = true) :
    ∀ l1 : List α, (∀ x ∈ l1, ¬ p x = true) → (l1 ++ a :: l2).find? p = some a := by
  intro l1
  induction l1 with
  | nil => intro _; rw [List.nil_append, List.find?_cons_of_pos _ ha]
  | cons b l1 ih =>
    intro h
    rw [List.cons_append, List.find?_cons_of_neg _ (h b (List.mem_cons_self b l1))]
    exact ih (fun x hx => h x (List.mem_cons_of_mem b hx))

theorem updateFirst_countP {α : Type} (P : α → Bool) (f : α → α) (p : α → Bool)
    (hp : ∀ x, p (f x) = p x) : ∀ l : List α, (updateFirst P f l).countP p = l.countP p := by
  intro l
  induction l with
  | nil => rfl
  | cons a l ih =>
    rw [updateFirst]
    by_cases h : P a
    · rw [if_pos h, List.countP_cons, List.countP_cons, hp]
    · rw [if_neg h, List.countP_cons, List.countP_cons, ih]

theorem exists_host_of_proj_eq (ps ps' : List LobbyPlayer) (hid : String)
    (h : ps'.map (fun q => (q.id, q.isHost)) = ps.map (fun q => (q.id, q.isHost)))
    (hw : ∃ p ∈ ps, p.isHost = true ∧ p.id = hid) :
    ∃ p ∈ ps', p.isHost = true ∧ p.id = hid := by
  obtain ⟨p, hp, h1, h2⟩ := hw
  have hm : (p.id, p.isHost) ∈ ps'.map (fun q => (q.id, q.isHost)) := by
    rw [h]
    exact List.mem_map_of_mem _ hp
  obtain ⟨q, hq, hqe⟩ := List.mem_map.mp hm
  have hq1 : q.id = p.id := congrArg Prod.fst hqe
  have hq2 : q.isHost = p.isHost := congrArg Prod.snd hqe
  exact ⟨q, hq, by rw [hq2, h1], by rw [hq1, h2]⟩

/-- The host-authority invariant of a live lobby: nonempty membership, no
duplicate player ids, exactly one member flagged host, and the flagged member
matching the lobby's host pointer. -/
def HostInv (l : LobbyState) (ps : List LobbyPlayer) : Prop :=
  ps ≠ [] ∧ (ps.map (·.id)).Nodup ∧ ps.countP (·.isHost) = 1 ∧
    ∃ p ∈ ps, p.isHost = true ∧ p.id = l.hostId

theorem applyOp_inv (l : LobbyState) (ps : List LobbyPlayer) (op : Op) (h : HostInv l ps) :
    ∀ l' ps', applyOp (some (l, ps)) op = some (l', ps') → HostInv l' ps' := by
  obtain ⟨hne, hnd, hcnt, hw⟩ := h
  intro l' ps' hst
  cases op with
  | join pid sid name =>
    rw [applyOp] at hst
    cases hj : joinLobby (some l) ps pid sid name with
    | none =>
      rw [hj] at hst
      cases hst
      exact ⟨hne, hnd, hcnt, hw⟩
    | some r =>
      obtain ⟨lj, pj, psj⟩ := r
      rw [hj] at hst
      cases hst
      rw [joinLobby] at hj
      split at hj
      · cases hj
      · split at hj
        · cases hj
        · split at hj
          · cases hj
          · split at hj
            · next ex heq =>
              cases hj
              have hproj := updateFirst_map_of_preserve (fun p => p.id == pid)
                (fun p => { p with socketId := sid, isConnected := true, disconnectedAt := none })
                (fun q => (q.id, q.isHost)) (fun x => rfl) ps
              have hids := updateFirst_map_of_preserve (fun p => p.id == pid)
                (fun p => { p with socketId := sid, isConnected := true, disconnectedAt := none })
                (fun q => q.id) (fun x => rfl) ps
              have hlen := updateFirst_length (fun p => p.id == pid)
                (fun p => { p with socketId := sid, isConnected := true, disconnectedAt := none }) ps
              refine ⟨?_, ?_, ?_, ?_⟩
              · intro hnil
                rw [hnil] at hlen
                exact hne (List.eq_nil_of_length_eq_zero hlen.symm)
              · rw [hids]
                exact hnd
              · rw [updateFirst_countP (fun p : LobbyPlayer => p.id == pid)
                  (fun p => { p with socketId := sid, isConnected := true, disconnectedAt := none })
                  (fun x => x.isHost) (fun x => rfl)]
                exact hcnt
              · exact exists_host_of_proj_eq ps _ l.hostId hproj hw
            · next heq =>
              cases hj
              have hpid : pid ∉ ps.map (·.id) := by
                intro hmem
                obtain ⟨x, hx, hxe⟩ := List.mem_map.mp hmem
                exact (List.find?_eq_none.mp heq x hx) (by simp [hxe])
              refine ⟨by simp, ?_, ?_, ?_⟩
              · rw [List.map_append]
                refine List.Nodup.append hnd (List.nodup_singleton _) ?_
                intro a ha hb
                simp only [List.map_cons, List.map_nil, List.mem_singleton] at hb
                rw [hb] at ha
                exact hpid ha
              · rw [List.countP_append, hcnt]
                rfl
              · obtain ⟨p, hp, h1, h2⟩ := hw
                exact ⟨p, List.mem_append_left _ hp, h1, h2⟩
  | leave pid =>
    rw [applyOp] at hst
    cases hf : ps.find? (fun q => q.id == pid) with
    | none =>
      have hr : leaveLobby l ps pid =
          { removed := false, remaining := ps, lobbyDeleted := false, lobby := l } := by
        rw [leaveLobby, hf]
      rw [hr] at hst
      simp at hst
      obtain ⟨h1, h2⟩ := hst
      subst h1
      subst h2
      exact ⟨hne, hnd, hcnt, hw⟩
    | some leaving =>
      have hmem : leaving ∈ ps := List.mem_of_find?_eq_some hf
      have hpl := List.find?_some hf
      obtain ⟨a, l1, l2, hl1, hpa, hps, herase⟩ :=
        @List.exists_of_eraseP LobbyPlayer (fun q : LobbyPlayer => q.id == pid) ps leaving hmem hpl
      have hfa : ps.find? (fun q => q.id == pid) = some a := by
        rw [hps]
        exact find?_split (fun q : LobbyPlayer => q.id == pid) a l2 hpa l1 hl1
      rw [hf] at hfa
      cases hfa
      cases hrem : ps.eraseP (fun q => q.id == pid) with
      | nil =>
        have hr : leaveLobby l ps pid =
            { removed := true, remaining := [], lobbyDeleted := true, lobby := l } := by
          simp [leaveLobby, hf, hrem]
        rw [hr] at hst
        simp at hst
      | cons h0 rest =>
        have hsubids : ((l1 ++ l2).map (·.id)).Nodup := by
          have hsub : (l1 ++ l2).Sublist ps := by
            rw [hps]
            exact List.Sublist.append_left (List.sublist_cons_self leaving l2) l1
          exact List.Nodup.sublist (hsub.map (·.id)) hnd
        have hrem' : l1 ++ l2 = h0 :: rest := by rw [← herase, hrem]
        cases hhost : leaving.isHost with
        | true =>
          have htmp := hcnt
          rw [hps] at htmp
          simp only [List.countP_append, List.countP_cons, hhost, if_true] at htmp
          have hr : leaveLobby l ps pid =
              { removed := true, newHost := some { h0 with isHost := true },
                remaining := { h0 with isHost := true } :: rest, lobbyDeleted := false,
                lobby := { l with hostId := h0.id, hostSocketId := h0.socketId } } := by
            simp [leaveLobby, hf, hrem, hhost]
          rw [hr] at hst
          simp at hst
          obtain ⟨h1, h2⟩ := hst
          subst h1
          subst h2
          have hcnt0 : (h0 :: rest).countP (·.isHost) = 0 := by
            have heq2 : (l1 ++ l2).countP (·.isHost) = (h0 :: rest).countP (·.isHost) := by
              rw [hrem']
            simp only [List.countP_append] at heq2
            omega
          have hh0 : h0.isHost = false := by
            cases hh : h0.isHost
            · rfl
            · exfalso
              simp only [List.countP_cons, hh, if_true] at hcnt0
              omega
          have hrest0 : rest.countP (·.isHost) = 0 := by
            simp only [List.countP_cons, hh0] at hcnt0
            simpa using hcnt0
          refine ⟨by simp, ?_, ?_, ?_⟩
          · have h := hsubids
            rw [hrem'] at h
            simpa using h
          · simp [List.countP_cons, hrest0]
          · exact ⟨{ h0 with isHost := true }, List.mem_cons_self _ _, rfl, rfl⟩
        | false =>
          have htmp := hcnt
          rw [hps] at htmp
          simp only [List.countP_append, List.countP_cons, hhost, Bool.false_eq_true,
            if_false] at htmp
          have hr : leaveLobby l ps pid =
              { removed := true, remaining := h0 :: rest, lobbyDeleted := false, lobby := l } := by
            simp [leaveLobby, hf, hrem, hhost]
          rw [hr] at hst
          simp at hst
          obtain ⟨h1, h2⟩ := hst
          subst h1
          subst h2
          refine ⟨by simp, ?_, ?_, ?_⟩
          · have h := hsubids
            rw [hrem'] at h
            exact h
          · have heq2 : (l1 ++ l2).countP (·.isHost) = (h0 :: rest).countP (·.isHost) := by
              rw [hrem']
            simp only [List.countP_append] at heq2
            omega
          · obtain ⟨p, hp, h1', h2'⟩ := hw
            rw [hps] at hp
            rw [← hrem']
            rcases List.mem_append.mp hp with hin | hin
            · exact ⟨p, List.mem_append_left _ hin, h1', h2'⟩
            · rcases List.mem_cons.mp hin with rfl | hin
              · rw [h1'] at hhost
                exact Bool.noConfusion hhost
              · exact ⟨p, List.mem_append_right _ hin, h1', h2'⟩
  | disconnect pid now =>
    rw [applyOp] at hst
    cases hst
    have hproj := updateFirst_map_of_preserve (fun p => p.id == pid)
      (fun p => { p with isConnected := false, disconnectedAt := some now })
      (fun q => (q.id, q.isHost)) (fun x => rfl) ps
    have hids := updateFirst_map_of_preserve (fun p => p.id == pid)
      (fun p => { p with isConnected := false, disconnectedAt := some now })
      (fun q => q.id) (fun x => rfl) ps
    have hlen := updateFirst_length (fun p => p.id == pid)
      (fun p => { p with isConnected := false, disconnectedAt := some now }) ps
    refine ⟨?_, ?_, ?_, ?_⟩
    · intro hnil
      rw [handlePlayerDisconnect] at hnil
      rw [hnil] at hlen
      exact hne (List.eq_nil_of_length_eq_zero hlen.symm)
    · rw [handlePlayerDisconnect, hids]
      exact hnd
    · rw [handlePlayerDisconnect, updateFirst_countP (fun p : LobbyPlayer => p.id == pid)
        (fun p => { p with isConnected := false, disconnectedAt := some now })
        (fun x => x.isHost) (fun x => rfl)]
      exact hcnt
    · exact exists_host_of_proj_eq ps _ l.hostId (by rw [handlePlayerDisconnect, hproj]) hw

theorem applyOps_inv (ops : List Op) :
    ∀ st : Option (LobbyState × List LobbyPlayer),
      (∀ l ps, st = some (l, ps) → HostInv l ps) →
      ∀ l ps, ops.foldl applyOp st = some (l, ps) → HostInv l ps := by
  induction ops with
  | nil =>
    intro st h l ps hst
    exact h l ps hst
  | cons op ops ih =>
    intro st h l ps hst
    rw [List.foldl_cons] at hst
    refine ih (applyOp st op) ?_ l ps hst
    intro l' ps' hst'
    cases st with
    | none => cases hst'
    | some s =>
      obtain ⟨l0, ps0⟩ := s
      exact applyOp_inv l0 ps0 op (h l0 ps0 rfl) l' ps' hst'

/-- A lobby whose host `H` is about to leave while the next member by join
order (`A`) is disconnected and a later member (`B`) is still connected. -/
def transferL : LobbyState :=
  { code := "ABCD", gameId := "g", hostId := "H", hostSocketId := "sH",
    status := GStatus.waiting, gameType := "undercover", maxPlayers := 10,
    minPlayers := 3, createdAt := 0 }

/-- The member list of `transferL` in join order. -/
def transferPs : List LobbyPlayer :=
  [{ id := "H", socketId := "sH", name := "Host", isHost := true, isConnected := true },
   { id := "A", socketId := "sA", name := "Ada", isHost := false, isConnected := false,
     disconnectedAt := some 1 },
   { id := "B", socketId := "sB", name := "Ben", isHost := false, isConnected := true }]

/-- C8 (counterexample): when the host of `transferL` leaves, host authority
goes to `A` — the first remaining member by join order — even though `A` is
disconnected and the connected member `B` is available, refuting the claimed
"first member by join order among those currently connected" tie-break. -/
theorem host_transfer_connected_cex :
    ((leaveLobby transferL transferPs "H").newHost.map (fun p => (p.id, p.isConnected))) =
        some ("A", false) ∧
      (leaveLobby transferL transferPs "H").lobby.hostId = "A" ∧
      ∃ b ∈ (leaveLobby transferL transferPs "H").remaining,
        b.id = "B" ∧ b.isConnected = true := by
  refine ⟨by decide, by decide, ?_⟩
  refine ⟨{ id := "B", socketId := "sB", name := "Ben", isHost := false, isConnected := true },
    ?_, rfl, rfl⟩
  decide

/-- C8 (amended): after every sequence of join/leave/disconnect operations on a
lobby that still has members, exactly one member has `isHost = true` and its id
matches the lobby's host pointer; when the host departs, host authority
transfers to the first remaining member by join order **regardless of
connection state**, and is never left unset while members remain. -/
theorem host_invariant (ops : List Op) (code hostPid hostSid hostName : String) :
    (∀ l ps, ops.foldl applyOp
        (some ((createLobby code hostPid hostSid hostName).1,
          [(createLobby code hostPid hostSid hostName).2])) = some (l, ps) →
      ps ≠ [] ∧ ps.countP (·.isHost) = 1 ∧ ∃ p ∈ ps, p.isHost = true ∧ p.id = l.hostId) ∧
    (∀ l ps pid leaving h0 rest,
      ps.find? (fun q => q.id == pid) = some leaving → leaving.isHost = true →
      ps.eraseP (fun q => q.id == pid) = h0 :: rest →
      (leaveLobby l ps pid).newHost = some { h0 with isHost := true } ∧
      (leaveLobby l ps pid).lobby.hostId = h0.id ∧
      (leaveLobby l ps pid).remaining = { h0 with isHost := true } :: rest) := by
  constructor
  · intro l ps hst
    have hinit : ∀ l0 ps0,
        (some ((createLobby code hostPid hostSid hostName).1,
          [(createLobby code hostPid hostSid hostName).2]) :
            Option (LobbyState × List LobbyPlayer)) = some (l0, ps0) →
        HostInv l0 ps0 := by
      intro l0 ps0 h0
      simp only [Option.some.injEq, Prod.mk.injEq] at h0
      obtain ⟨h1, h2⟩ := h0
      subst h1
      subst h2
      refine ⟨by simp, by simp, by simp [createLobby], ?_⟩
      exact ⟨(createLobby code hostPid hostSid hostName).2, by simp, rfl, rfl⟩
    have := applyOps_inv ops _ hinit l ps hst
    exact ⟨this.1, this.2.2.1, this.2.2.2⟩
  · intro l ps pid leaving h0 rest hf hhost hrem
    have hr : leaveLobby l ps pid =
        { removed := true, newHost := some { h0 with isHost := true },
          remaining := { h0 with isHost := true } :: rest, lobbyDeleted := false,
          lobby := { l with hostId := h0.id, hostSocketId := h0.socketId } } := by
      simp [leaveLobby, hf, hrem, hhost]
    rw [hr]
    exact ⟨rfl, rfl, rfl⟩

/-- C8 (witness): the invariant applied after a concrete no-op leave on a
freshly created lobby. -/
theorem host_invariant_witness :
    ∃ p ∈ [(createLobby "ABCD" "H" "s1" "Hope").2], p.isHost = true ∧
      p.id = (createLobby "ABCD" "H" "s1" "Hope").1.hostId :=
  (((host_invariant [Op.leave "p9"] "ABCD" "H" "s1" "Hope").1
    (createLobby "ABCD" "H" "s1" "Hope").1 [(createLobby "ABCD" "H" "s1" "Hope").2]
    (by decide)).2.2)

/-! ## Round start -/

theorem getD_mem {α : Type} (l : List α) (i : Nat) (d : α) (h : i < l.length) :
    l.getD i d ∈ l := by
  rw [List.getD_eq_getElem?_getD, List.getElem?_eq_getElem h]
  exact List.getElem_mem h

theorem countP_eq_one_of_nodup (c : String) :
    ∀ ids : List String, ids.Nodup → c ∈ ids →
      ids.countP (fun x => decide (x = c)) = 1 := by
  intro ids
  induction ids with
  | nil => intro _ hc; cases hc
  | cons a l ih =>
    intro hnd hc
    rw [List.countP_cons]
    rcases List.mem_cons.mp hc with heq | hmem
    · have hnotin : c ∉ l := by
        rw [heq]
        exact (List.nodup_cons.mp hnd).1
      have h0 : l.countP (fun x => decide (x = c)) = 0 := by
        rw [List.countP_eq_zero]
        intro x hx
        simp only [decide_eq_true_eq]
        rintro rfl
        exact hnotin hx
      rw [h0]
      simp [heq]
    · have ha : a ≠ c := fun h => (List.nodup_cons.mp hnd).1 (h ▸ hmem)
      rw [ih (List.nodup_cons.mp hnd).2 hmem]
      simp [ha]

/-- C3: starting a round on a lobby with at least three members (host calling)
assigns exactly one impostor who is a current member — the stored impostor id
belongs to the member list and exactly one delivered payload is flagged
impostor — every payload hides the secret word from the impostor and delivers
it to everyone else, the turn order is a permutation of the member list, and
the secret word is drawn from the announced category's word set, which is also
the word set delivered with every payload. -/
theorem startGameSrv_spec (L : SLobby) (sid : String) (catR wordR chamR : Nat)
    (randf : Nat → Nat) (hhost : L.host = sid) (hlen : 3 ≤ L.players.length)
    (hids : (L.players.map (·.id)).Nodup) :
    (∃ c, (startGameSrv L sid catR wordR chamR randf).1.chameleonId = some c ∧
      c ∈ L.players.map (·.id) ∧
      ((startGameSrv L sid catR wordR chamR randf).2.countP (fun q => q.2.isChameleon)) = 1 ∧
      ∀ q ∈ (startGameSrv L sid catR wordR chamR randf).2,
        q.2.secretWord = if q.1 = c then none
          else (startGameSrv L sid catR wordR chamR randf).1.secretWord) ∧
    List.Perm (startGameSrv L sid catR wordR chamR randf).1.playerOrder
      (L.players.map (·.id)) ∧
    (∃ cat ws, (cat, ws) ∈ CATEGORIES ∧
      (startGameSrv L sid catR wordR chamR randf).1.category = some cat ∧
      (startGameSrv L sid catR wordR chamR randf).1.allWords = ws ∧
      (∃ w, (startGameSrv L sid catR wordR chamR randf).1.secretWord = some w ∧ w ∈ ws) ∧
      ∀ q ∈ (startGameSrv L sid catR wordR chamR randf).2,
        q.2.category = cat ∧ q.2.allWords = ws) := by
  have hexp : startGameSrv L sid catR wordR chamR randf =
      ({ L with
          state := SState.playing
          category := some (CATEGORIES.getD (catR % CATEGORIES.length) ("", [])).1
          secretWord := some ((CATEGORIES.getD (catR % CATEGORIES.length) ("", [])).2.getD
            (wordR % (CATEGORIES.getD (catR % CATEGORIES.length) ("", [])).2.length) "")
          allWords := (CATEGORIES.getD (catR % CATEGORIES.length) ("", [])).2
          chameleonId := some (L.players.getD (chamR % L.players.length)
            { id := "", name := "", isHost := false }).id
          playerOrder := shuffleArray randf (L.players.map (·.id))
          currentPlayerIndex := 0
          players := L.players.map
            (fun p => { p with clue := none, vote := none, hasVoted := false }) },
        (L.players.map (fun p => { p with clue := none, vote := none, hasVoted := false })).map
          (fun p => (p.id,
            { category := (CATEGORIES.getD (catR % CATEGORIES.length) ("", [])).1
              allWords := (CATEGORIES.getD (catR % CATEGORIES.length) ("", [])).2
              secretWord := if p.id = (L.players.getD (chamR % L.players.length)
                  { id := "", name := "", isHost := false }).id then none
                else some ((CATEGORIES.getD (catR % CATEGORIES.length) ("", [])).2.getD
                  (wordR % (CATEGORIES.getD (catR % CATEGORIES.length) ("", [])).2.length) "")
              isChameleon := p.id = (L.players.getD (chamR % L.players.length)
                { id := "", name := "", isHost := false }).id
              playerOrder := shuffleArray randf (L.players.map (·.id))
              currentPlayer := (shuffleArray randf (L.players.map (·.id))).getD 0 "" }))) := by
    rw [startGameSrv, if_neg (by simp [hhost]), if_neg (by omega)]
  have hidx : chamR % L.players.length < L.players.length :=
    Nat.mod_lt _ (by omega)
  have hchammem : (L.players.getD (chamR % L.players.length)
      { id := "", name := "", isHost := false }) ∈ L.players :=
    getD_mem _ _ _ hidx
  have hcidx : catR % CATEGORIES.length < CATEGORIES.length := Nat.mod_lt _ (by decide)
  have hcatmem : CATEGORIES.getD (catR % CATEGORIES.length) ("", []) ∈ CATEGORIES :=
    getD_mem _ _ _ hcidx
  have hwlen : ∀ e ∈ CATEGORIES, 0 < e.2.length := by decide
  have hwidx : wordR % (CATEGORIES.getD (catR % CATEGORIES.length) ("", [])).2.length <
      (CATEGORIES.getD (catR % CATEGORIES.length) ("", [])).2.length :=
    Nat.mod_lt _ (hwlen _ hcatmem)
  have hword : (CATEGORIES.getD (catR % CATEGORIES.length) ("", [])).2.getD
      (wordR % (CATEGORIES.getD (catR % CATEGORIES.length) ("", [])).2.length) "" ∈
      (CATEGORIES.getD (catR % CATEGORIES.length) ("", [])).2 :=
    getD_mem _ _ _ hwidx
  rw [hexp]
  refine ⟨?_, ?_, ?_⟩
  · refine ⟨(L.players.getD (chamR % L.players.length)
      { id := "", name := "", isHost := false }).id, rfl, ?_, ?_, ?_⟩
    · exact List.mem_map_of_mem _ hchammem
    · rw [List.countP_map, List.countP_map]
      show L.players.countP ((fun x : String =>
        decide (x = (L.players.getD (chamR % L.players.length)
          { id := "", name := "", isHost := false }).id)) ∘ (fun p : SPlayer => p.id)) = 1
      rw [← List.countP_map]
      exact countP_eq_one_of_nodup _ _ hids (List.mem_map_of_mem _ hchammem)
    · intro q hq
      obtain ⟨p, hp, rfl⟩ := List.mem_map.mp hq
      rfl
  · exact shuffleArray_perm randf (L.players.map (·.id))
  · refine ⟨(CATEGORIES.getD (catR % CATEGORIES.length) ("", [])).1,
      (CATEGORIES.getD (catR % CATEGORIES.length) ("", [])).2, ?_, rfl, rfl, ⟨_, rfl, hword⟩, ?_⟩
    · have := hcatmem
      rwa [← Prod.mk.eta (p := CATEGORIES.getD (catR % CATEGORIES.length) ("", []))] at this
    · intro q hq
      obtain ⟨p, hp, rfl⟩ := List.mem_map.mp hq
      exact ⟨rfl, rfl⟩

/-- A waiting three-member server lobby for exercising the round start. -/
def srvL : SLobby :=
  { code := "ABCD", host := "sH", state := SState.waiting,
    players := [{ id := "sH", name := "Host", isHost := true },
                { id := "s2", name := "Bob", isHost := false },
                { id := "s3", name := "Cara", isHost := false }] }

/-- C3 (witness): the round-start theorem applied at the concrete three-member
lobby with a fixed random stream. -/
theorem startGameSrv_spec_witness :
    List.Perm (startGameSrv srvL "sH" 0 0 0 (fun _ => 0)).1.playerOrder
      (srvL.players.map (·.id)) :=
  (startGameSrv_spec srvL "sH" 0 0 0 (fun _ => 0) rfl (by decide) (by decide)).2.1

/-! ## Disconnect grace-period expiry -/

theorem split_map_nodup_ne {α β : Type} (f : α → β) (l1 l2 : List α) (a : α)
    (h : ((l1 ++ a :: l2).map f).Nodup) :
    (∀ x ∈ l1, f x ≠ f a) ∧ (∀ x ∈ l2, f x ≠ f a) := by
  rw [List.map_append, List.map_cons, List.nodup_append] at h
  obtain ⟨h1, h2, h3⟩ := h
  constructor
  · intro x hx heq
    exact h3 (List.mem_map_of_mem f hx) (by rw [heq]; exact List.mem_cons_self _ _)
  · intro x hx heq
    exact (List.nodup_cons.mp h2).1 (heq ▸ List.mem_map_of_mem f hx)

theorem find?_skip_middle {α : Type} (P : α → Bool) (a b : α) (l1 l2 : List α)
    (ha : ¬ P a = true) (hb : ¬ P b = true) :
    (l1 ++ a :: l2).find? P = (l1 ++ b :: l2).find? P := by
  rw [List.find?_append, List.find?_append, List.find?_cons_of_neg _ ha,
    List.find?_cons_of_neg _ hb]

/-- A concluded (`results`-phase) lobby with a disconnected member awaiting
grace-period expiry. -/
def resultsL : SLobby :=
  { code := "ABCD", host := "s1", state := SState.results,
    players := [{ id := "s1", name := "Alice", isHost := true },
                { id := "s2", name := "Bob", isHost := false, disconnectedAt := some 3,
                  disconnectedSocketId := some "s2" }],
    category := some "Animals", secretWord := some "Dog",
    allWords := ["Dog", "Cat"], chameleonId := some "s2",
    playerOrder := ["s2", "s1"], caughtChameleon := true }

/-- C5 (counterexample): in the concluded phase (`results`, the spec's
`finished`), the expiry of Bob's grace period still broadcasts
`game-interrupted` and resets the round to `waiting`; the implementation
interrupts for every status other than `waiting`, not only when
`status ∉ {waiting, finished}` as claimed. -/
theorem disconnectExpiry_results_cex :
    resultsL.state = SState.results ∧
    (disconnectExpiry resultsL "Bob" "s2").2 = some (SEvent.gameInterrupted "Bob") ∧
    ((disconnectExpiry resultsL "Bob" "s2").1.map (·.state)) = some SState.waiting ∧
    ((disconnectExpiry resultsL "Bob" "s2").1.map (·.playerOrder)) = some [] := by
  decide

/-- C5 (amended): when the grace deadline elapses with the disconnect marker
still in place, the member is removed (host transfer to the first remaining
member applying) and the remaining members receive a `game-interrupted`
broadcast with the round reset to `waiting` if and only if the status was not
`waiting` at expiry — this includes the concluded `results` phase, which the
in-progress-only reading would exclude; in `waiting` a plain `player-left` is
broadcast instead. -/
theorem disconnectExpiry_spec (L : SLobby) (pname sid : String) (cur h0 : SPlayer)
    (rest : List SPlayer)
    (hf : L.players.find? (fun p => p.name == pname) = some cur)
    (hd : cur.disconnectedSocketId = some sid)
    (hrem : L.players.eraseP (fun p => p.name == pname) = h0 :: rest) :
    ∃ L', (disconnectExpiry L pname sid).1 = some L' ∧
      L'.players = (if cur.isHost then { h0 with isHost := true } :: rest else h0 :: rest) ∧
      L'.players.length + 1 = L.players.length ∧
      L'.host = (if cur.isHost then h0.id else L.host) ∧
      (L.state ≠ SState.waiting →
        (disconnectExpiry L pname sid).2 = some (SEvent.gameInterrupted pname) ∧
        L'.state = SState.waiting ∧ L'.category = none ∧ L'.secretWord = none ∧
        L'.allWords = [] ∧ L'.chameleonId = none ∧ L'.playerOrder = [] ∧
        L'.currentPlayerIndex = 0) ∧
      (L.state = SState.waiting →
        (disconnectExpiry L pname sid).2 = some (SEvent.playerLeft pname) ∧
        L'.state = SState.waiting) := by
  have hmem : cur ∈ L.players := List.mem_of_find?_eq_some hf
  have hcp := List.find?_some hf
  have hlen : (h0 :: rest).length + 1 = L.players.length := by
    have hl := @List.length_eraseP_of_mem SPlayer L.players cur
      (fun q : SPlayer => q.name == pname) hmem hcp
    rw [hrem] at hl
    have hpos : 0 < L.players.length := List.length_pos.mpr (List.ne_nil_of_mem hmem)
    omega
  by_cases hst : L.state = SState.waiting
  · have hr : disconnectExpiry L pname sid =
        (some { L with
            players := if cur.isHost then { h0 with isHost := true } :: rest else h0 :: rest
            host := if cur.isHost then h0.id else L.host },
         some (SEvent.playerLeft pname)) := by
      simp [disconnectExpiry, hf, hd, hrem, hst]
    rw [hr]
    refine ⟨_, rfl, rfl, ?_, rfl, fun h => absurd hst h, fun _ => ⟨rfl, hst⟩⟩
    by_cases hh : cur.isHost = true
    · simp only [hh, if_true, List.length_cons]
      simp only [List.length_cons] at hlen
      omega
    · simp only [hh, if_false]
      exact hlen
  · have hr : disconnectExpiry L pname sid =
        (some { L with
            players := if cur.isHost then { h0 with isHost := true } :: rest else h0 :: rest
            host := if cur.isHost then h0.id else L.host
            state := SState.waiting
            category := none
            secretWord := none
            allWords := []
            chameleonId := none
            playerOrder := []
            currentPlayerIndex := 0 },
         some (SEvent.gameInterrupted pname)) := by
      simp [disconnectExpiry, hf, hd, hrem, hst]
    rw [hr]
    refine ⟨_, rfl, rfl, ?_, rfl,
      fun _ => ⟨rfl, rfl, rfl, rfl, rfl, rfl, rfl, rfl⟩, fun h => absurd h hst⟩
    by_cases hh : cur.isHost = true
    · simp only [hh, if_true, List.length_cons]
      simp only [List.length_cons] at hlen
      omega
    · simp only [hh, if_false]
      exact hlen

/-- A playing-phase lobby with member Bob disconnected, for the expiry
witness. -/
def expiryL : SLobby :=
  { code := "ABCD", host := "s1", state := SState.playing,
    players := [{ id := "s1", name := "Alice", isHost := true },
                { id := "s2", name := "Bob", isHost := false, disconnectedAt := some 3,
                  disconnectedSocketId := some "s2" }],
    chameleonId := some "s2", playerOrder := ["s2", "s1"] }

/-- C5 (witness): the amended theorem applied at the concrete playing-phase
lobby. -/
theorem disconnectExpiry_spec_witness :
    ∃ L', (disconnectExpiry expiryL "Bob" "s2").1 = some L' ∧
      L'.players.length + 1 = expiryL.players.length ∧
      (disconnectExpiry expiryL "Bob" "s2").2 = some (SEvent.gameInterrupted "Bob") := by
  obtain ⟨L', h1, _, h3, _, h5, _⟩ := disconnectExpiry_spec expiryL "Bob" "s2"
    { id := "s2", name := "Bob", isHost := false, disconnectedAt := some 3,
      disconnectedSocketId := some "s2" }
    { id := "s1", name := "Alice", isHost := true } [] (by decide) rfl (by decide)
  exact ⟨L', h1, h3, (h5 (by decide)).1⟩

/-! ## Disconnect followed by rejoin -/

/-- C6: for every phase, a disconnect of member `p` followed by a rejoin under
the same display name before the grace deadline leaves the
connection-independent view of the lobby — membership, phase, impostor, turn
order, clues and votes — exactly as it was, the rejoin reports success, and the
deferred grace check for the old socket afterwards changes nothing (no member
removal and no round reset). -/
theorem rejoin_roundtrip (L : SLobby) (p : SPlayer) (newId : String) (t : Nat)
    (hp : p ∈ L.players)
    (hids : (L.players.map (·.id)).Nodup)
    (hnames : (L.players.map (·.name)).Nodup)
    (hclean : p.disconnectedAt = none ∧ p.disconnectedSocketId = none)
    (hfresh : newId ∉ L.players.map (·.id) ∧ newId ∉ L.playerOrder ∧
      L.chameleonId ≠ some newId ∧ L.host ≠ newId)
    (horder : L.playerOrder.Nodup) :
    viewLobby ((rejoinLobby (disconnectPlayer L p.id t) p.name newId).1) = viewLobby L ∧
    (rejoinLobby (disconnectPlayer L p.id t) p.name newId).2 = SEvent.rejoinSuccess ∧
    disconnectExpiry ((rejoinLobby (disconnectPlayer L p.id t) p.name newId).1) p.name p.id =
      (some ((rejoinLobby (disconnectPlayer L p.id t) p.name newId).1), none) := by
  obtain ⟨l1, l2, hsplit⟩ := List.append_of_mem hp
  have hidsp := hids
  rw [hsplit] at hidsp
  obtain ⟨hid1, hid2⟩ := split_map_nodup_ne (·.id) l1 l2 p hidsp
  have hnamesp := hnames
  rw [hsplit] at hnamesp
  obtain ⟨hname1, hname2⟩ := split_map_nodup_ne (·.name) l1 l2 p hnamesp
  have hfreshall : ∀ x ∈ L.players, x.id ≠ newId := by
    intro x hx heq
    exact hfresh.1 (heq ▸ List.mem_map_of_mem _ hx)
  have hpl1 : (disconnectPlayer L p.id t).players =
      l1 ++ { p with disconnectedAt := some t, disconnectedSocketId := some p.id } :: l2 := by
    show updateFirst (fun q => q.id == p.id)
      (fun q => { q with disconnectedAt := some t, disconnectedSocketId := some p.id })
      L.players = _
    rw [hsplit]
    exact updateFirst_split _ _ p l2 (by simp) l1 (fun y hy => by simpa using hid1 y hy)
  have hfind2 : (disconnectPlayer L p.id t).players.find? (fun q => q.name == p.name) =
      some { p with disconnectedAt := some t, disconnectedSocketId := some p.id } := by
    rw [hpl1]
    exact find?_split _ _ l2 (by simp) l1 (fun y hy => by simpa using hname1 y hy)
  have hupd2 : updateFirst (fun q => q.name == p.name)
      (fun q => { q with id := newId, disconnectedAt := none, disconnectedSocketId := none })
      (disconnectPlayer L p.id t).players =
      l1 ++ { p with id := newId, disconnectedAt := none, disconnectedSocketId := none } :: l2 := by
    rw [hpl1]
    exact updateFirst_split _ _ _ l2 (by simp) l1 (fun y hy => by simpa using hname1 y hy)
  have hL2 : rejoinLobby (disconnectPlayer L p.id t) p.name newId =
      ({ L with
          players := l1 ++
            { p with id := newId, disconnectedAt := none, disconnectedSocketId := none } :: l2
          host := if L.host = p.id then newId else L.host
          chameleonId := if L.chameleonId = some p.id then some newId else L.chameleonId
          playerOrder := updateFirst (fun i => i == p.id) (fun _ => newId) L.playerOrder },
       SEvent.rejoinSuccess) := by
    rw [rejoinLobby, hfind2]
    simp only [hupd2]
    rfl
  set pnew : SPlayer :=
    { p with id := newId, disconnectedAt := none, disconnectedSocketId := none } with hpnewdef
  set RL : SLobby :=
    { L with
        players := l1 ++ pnew :: l2
        host := if L.host = p.id then newId else L.host
        chameleonId := if L.chameleonId = some p.id then some newId else L.chameleonId
        playerOrder := updateFirst (fun i => i == p.id) (fun _ => newId) L.playerOrder }
    with hRLdef
  have hRLplayers : RL.players = l1 ++ pnew :: l2 := by rw [hRLdef]
  have hnameNew : nameOf RL newId = p.name := by
    have hfnd : RL.players.find? (fun q => q.id == newId) = some pnew := by
      rw [hRLplayers]
      refine find?_split _ _ l2 (by simp) l1 ?_
      intro y hy
      simpa using hfreshall y (by rw [hsplit]; exact List.mem_append_left _ hy)
    simp [nameOf, hfnd]
  have hnameP : nameOf L p.id = p.name := by
    have hfnd : L.players.find? (fun q => q.id == p.id) = some p := by
      rw [hsplit]
      exact find?_split _ _ l2 (by simp) l1 (fun y hy => by simpa using hid1 y hy)
    simp [nameOf, hfnd]
  have hnameOther : ∀ i, i ≠ p.id → i ≠ newId → nameOf RL i = nameOf L i := by
    intro i h1 h2
    show (((RL.players.find? (fun q => q.id == i)).map (·.name))).getD i =
      (((L.players.find? (fun q => q.id == i)).map (·.name))).getD i
    rw [hRLplayers, hsplit, find?_skip_middle (fun q : SPlayer => q.id == i) pnew p l1 l2
      (by simp [Ne.symm h2]) (by simp [Ne.symm h1])]
  have hview : viewLobby RL = viewLobby L := by
    rw [viewLobby, viewLobby]
    congr 1
    · show nameOf RL (if L.host = p.id then newId else L.host) = nameOf L L.host
      by_cases hh : L.host = p.id
      · rw [if_pos hh, hnameNew, hh, hnameP]
      · rw [if_neg hh]
        exact hnameOther L.host hh hfresh.2.2.2
    · show (l1 ++ pnew :: l2).map viewPlayer = L.players.map viewPlayer
      rw [hsplit, List.map_append, List.map_append, List.map_cons, List.map_cons]
      have hvp : viewPlayer pnew = viewPlayer p := by
        rw [hpnewdef, viewPlayer, viewPlayer]
        simp [hclean.1, hclean.2]
      rw [hvp]
    · show (if L.chameleonId = some p.id then some newId else L.chameleonId).map (nameOf RL) =
        L.chameleonId.map (nameOf L)
      by_cases hc : L.chameleonId = some p.id
      · rw [if_pos hc, hc]
        simp [hnameNew, hnameP]
      · rw [if_neg hc]
        cases hcc : L.chameleonId with
        | none => rfl
        | some cid =>
          simp only [Option.map_some']
          congr 1
          refine hnameOther cid ?_ ?_
          · intro h
            exact hc (by rw [hcc, h])
          · intro h
            exact hfresh.2.2.1 (by rw [hcc, h])
    · show (updateFirst (fun i => i == p.id) (fun _ => newId) L.playerOrder).map (nameOf RL) =
        L.playerOrder.map (nameOf L)
      by_cases hmo : p.id ∈ L.playerOrder
      · obtain ⟨o1, o2, hosplit⟩ := List.append_of_mem hmo
        have hordn := horder
        rw [hosplit] at hordn
        obtain ⟨ho1, ho2⟩ := split_map_nodup_ne (fun x => x) o1 o2 p.id (by simpa using hordn)
        rw [hosplit, updateFirst_split (fun i => i == p.id) (fun _ => newId) p.id o2
          (by simp) o1 (fun y hy => by simpa using ho1 y hy)]
        rw [List.map_append, List.map_append, List.map_cons, List.map_cons]
        have hfro : ∀ x ∈ L.playerOrder, x ≠ newId := by
          intro x hx heq
          exact hfresh.2.1 (heq ▸ hx)
        congr 1
        · refine List.map_congr_left ?_
          intro x hx
          exact hnameOther x (ho1 x hx)
            (hfro x (by rw [hosplit]; exact List.mem_append_left _ hx))
        · rw [hnameNew, hnameP]
          congr 1
          refine List.map_congr_left ?_
          intro x hx
          exact hnameOther x (ho2 x hx)
            (hfro x (by rw [hosplit]; exact List.mem_append_right _ (List.mem_cons_of_mem _ hx)))
      · rw [updateFirst_of_forall_neg _ _ L.playerOrder (fun x hx => by
          simp only [beq_iff_eq]
          intro h
          exact hmo (h ▸ hx))]
        refine List.map_congr_left ?_
        intro x hx
        exact hnameOther x (fun h => hmo (h ▸ hx)) (fun h => hfresh.2.1 (h ▸ hx))
  have hfind3 : RL.players.find? (fun q => q.name == p.name) = some pnew := by
    rw [hRLplayers]
    exact find?_split _ _ l2 (by simp) l1 (fun y hy => by simpa using hname1 y hy)
  have hexpiry : disconnectExpiry RL p.name p.id = (some RL, none) := by
    rw [disconnectExpiry, hfind3]
    simp
  refine ⟨?_, ?_, ?_⟩
  · rw [hL2]
    exact hview
  · rw [hL2]
  · rw [hL2]
    exact hexpiry

/-- Member Bob of the witness lobby for the rejoin round-trip. -/
def bobP : SPlayer :=
  { id := "s2", name := "Bob", isHost := false, clue := some "fast", vote := some "s1",
    hasVoted := true }

/-- A mid-round lobby (playing phase, Bob is the impostor and has clue and vote
state) for the rejoin round-trip witness. -/
def roundL : SLobby :=
  { code := "ABCD", host := "s1", state := SState.playing,
    players := [{ id := "s1", name := "Alice", isHost := true }, bobP],
    category := some "Animals", secretWord := some "Dog", allWords := ["Dog", "Cat"],
    chameleonId := some "s2", playerOrder := ["s2", "s1"], currentPlayerIndex := 1 }

/-- C6 (witness): the round-trip theorem applied to Bob disconnecting and
rejoining `roundL` on a fresh socket. -/
theorem rejoin_roundtrip_witness :
    (rejoinLobby (disconnectPlayer roundL "s2" 7) "Bob" "s9").2 = SEvent.rejoinSuccess ∧
    viewLobby ((rejoinLobby (disconnectPlayer roundL "s2" 7) "Bob" "s9").1) =
      viewLobby roundL := by
  have h := rejoin_roundtrip roundL bobP "s9" 7 (by decide) (by decide) (by decide)
    ⟨rfl, rfl⟩ (by decide) (by decide)
  exact ⟨h.2.1, h.1⟩
